import Mathlib

/-!
# Static site generation pipeline (`lib/site.go`)

A shallow embedding of the generation pipeline of `lib/site.go`:
`filter`, `getPosts`, `clearPublishDir`, `generateFile`, `generateRss` and
`GenerateSite`, followed by theorems about them.

Conventions of the embedding.

* Go slices are lists; an index expression out of range, a slice expression out of
  range and a nil dereference are panics (`none`, or `Status.panic`).
* A `time.Time` is the instant it denotes, an `Int`; `Before` is `<` on instants.
* The output directory `PublicDir` is the list of its direct entries, each a name, the
  directory flag and the file content; what lies below a subdirectory or outside
  `PublicDir` is not part of the state. Library calls whose outcome depends on the
  machine (`os.Remove`, `os.Create`, `ioutil.ReadDir`, template execution, `net/url`,
  `sort.Sort`) are fields of an environment `Env`, so every theorem holds for each of
  their behaviours.
* Paths are Unix paths: the separator is the slash, and `filepath.Join(PublicDir, name)` is
  the lexical `Clean` of the elements of `PublicDir` followed by those of `name`.
* `log.Printf` output is not part of the state.
-/

namespace Site

/-! ## Data model -/

/-- The part of `os.FileInfo` the pipeline reads: `Name()` and `IsDir()`. -/
structure FileInfo where
  name : String
  isDir : Bool
deriving DecidableEq, Repr

/-- Modelled from the spec: the declaration of `LongPost` is not in `lib/site.go`; the
fields are those of the spec's Post entity (and the ones `site.go` reads: `Slug`, `Title`,
`Description`, `Author`, `PublishDate`). -/
structure LongPost where
  Slug : String
  Title : String
  Description : String
  Author : String
  PublishDate : Int
  Content : String
deriving DecidableEq, Repr

/-- Modelled from the spec: the declaration of `Config` is not in `lib/site.go`.
`RecentPostsCount` is a Go `int` (`getPosts` assigns `len(allPosts)` to a variable
initialised from it), so it may be negative. -/
structure Config where
  SiteName : String
  Slogan : String
  BaseURL : String
  RecentPostsCount : Int
deriving DecidableEq, Repr

/-- Modelled from the spec: the render context `PostTempalte` (declared outside
`lib/site.go`): current post (nil for the feed pass), its index, the recent subset and
the full sorted sequence. -/
structure PostTempalte where
  Post : Option LongPost
  Idx : Nat
  Recent : List LongPost
  All : List LongPost
deriving DecidableEq, Repr

/-- Modelled from the spec: `newPostTempalte(p, i, recentPosts, allPosts)` builds the
render context from its four arguments. -/
def newPostTempalte (p : Option LongPost) (i : Nat) (recent all : List LongPost) :
    PostTempalte :=
  { Post := p, Idx := i, Recent := recent, All := all }

/-- Modelled from the spec: a feed item (Title, Description, resolved URL, Author,
category/identifier field, PublishDate). -/
structure RssItem where
  Title : String
  Description : String
  Link : String
  Author : String
  Category : String
  PubDate : Int
deriving DecidableEq, Repr

/-- Modelled from the spec: a feed channel (SiteName, Slogan, BaseURL) with its ordered
items. -/
structure RssChannel where
  Title : String
  Description : String
  Link : String
  Items : List RssItem
deriving DecidableEq, Repr

/-- Modelled from the spec: the feed document, a sequence of channels. -/
structure Rss where
  Channels : List RssChannel
deriving DecidableEq, Repr

/-- Modelled from the spec: `NewRss(title, description, link)` constructs a feed with one
channel and no item. -/
def NewRss (title description link : String) : Rss :=
  { Channels := [{ Title := title, Description := description, Link := link, Items := [] }] }

/-- Modelled from the spec: `NewRssItem(title, description, link, author, category,
pubDate)` builds an item from its six arguments. -/
def NewRssItem (title description link author category : String) (pubDate : Int) : RssItem :=
  { Title := title, Description := description, Link := link, Author := author,
    Category := category, PubDate := pubDate }

/-- Modelled from the spec: `AppendItem` appends an item at the end of a channel. -/
def RssChannel.AppendItem (c : RssChannel) (item : RssItem) : RssChannel :=
  { c with Items := c.Items ++ [item] }

/-- The statement `rss.Channels[0].AppendItem(item)`; `none` is the index panic on a feed
without channel. -/
def appendToFirstChannel (rss : Rss) (item : RssItem) : Option Rss :=
  match rss.Channels with
  | [] => none
  | c :: cs => some { Channels := c.AppendItem item :: cs }

/-- One entry of the output directory: name, directory flag and (for a file) content. -/
structure Entry where
  name : String
  isDir : Bool
  data : String
deriving DecidableEq, Repr

/-- The output directory `PublicDir`: its direct entries, in listing order. -/
abbrev Dir := List Entry

/-- How a call ended: normal return with a nil error, return with an error, or panic. -/
inductive Status where
  | ok
  | error (msg : String)
  | panic
deriving DecidableEq, Repr

/-- The three `net/url` operations the pipeline calls: `url.Parse`, the method
`(*URL).Parse` (parse a reference and resolve it against the receiver) and
`(*URL).String`. -/
structure UrlLib where
  URL : Type
  Parse : String → Except String URL
  ParseRef : URL → String → Except String URL
  toStr : URL → String

/-- The library and machine behaviours the pipeline depends on. -/
structure Env where
  /-- Package `net/url`. -/
  url : UrlLib
  /-- Function `sort.Sort` on a `posts` value, given the `Less` of its interface on elements. -/
  sortSort : (LongPost → LongPost → Bool) → List LongPost → List LongPost
  /-- Function `newLongPost(file)`, declared outside `lib/site.go`: a post or an error. -/
  newLongPost : FileInfo → Except String LongPost
  /-- Result of `ioutil.ReadDir(PostsDir)`. -/
  readPostsDir : Except String (List FileInfo)
  /-- Whether `template.ParseFiles` succeeds (`template.Must` panics otherwise). -/
  templatesOk : Bool
  /-- Call `postTemplate.ExecuteTemplate(w, "base", pt)`: the bytes written to `w` and the
  error returned, if any. -/
  render : PostTempalte → String × Option String
  /-- The error of `ioutil.ReadDir(PublicDir)`, if any. -/
  readPublicErr : Option String
  /-- The error with which `os.Remove` of an existing entry fails, if any. -/
  removeErr : String → Option String
  /-- The elements of the rooted, clean path `PublicDir` (`filepath.Join(pwd, "public")`). -/
  publicDir : List String
  /-- The error with which `os.Create` fails on a path that the directory listing does not
  already refuse, if any. -/
  createErr : String → Option String
  /-- Serialisation of a feed by `WriteToFile`. -/
  serialize : Rss → String

/-! ## Library functions with a fixed meaning -/

/-- Loop of `filepath.Ext`, on the reversed path: walk from the last byte towards the
first, stop at a path separator with the empty extension, at a dot with the suffix that
starts there. -/
def extLoop : List Char → List Char → List Char
  | [], _ => []
  | c :: rest, acc =>
    if c = '/' then [] else if c = '.' then c :: acc else extLoop rest (c :: acc)

/-- The extension `filepath.Ext(path)`: the suffix beginning at the final dot of the final
element of `path`, empty if there is none. The path separator is the slash. -/
def Ext (path : String) : String := ⟨extLoop path.data.reverse []⟩

/-- The test `strings.HasPrefix(s, p)`. -/
def HasPrefix (s p : String) : Bool := p.data.isPrefixOf s.data

/-- The adapter `sort.Reverse`: its `Less(i, j)` is the wrapped `Less(j, i)`. -/
def reverseLess {α : Type} (less : α → α → Bool) (a b : α) : Bool := less b a

/-- The method `Swap(i, j)` of a sortable slice. -/
def swap {α : Type} (data : List α) (i j : Nat) : List α :=
  match data[i]?, data[j]? with
  | some a, some b => (data.set i b).set j a
  | _, _ => data

/-- Inner loop of the `insertionSort` of package `sort`, from `a = 0`:
`for j := i; j > a && data.Less(j, j-1); j-- { data.Swap(j, j-1) }`. -/
def insertionInner {α : Type} (less : α → α → Bool) : Nat → List α → List α
  | 0, data => data
  | j + 1, data =>
    match data[j + 1]?, data[j]? with
    | some x, some y =>
      if less x y then insertionInner less j (swap data (j + 1) j) else data
    | _, _ => data

/-- The function `insertionSort(data, 0, n)` of package `sort`
(`for i := a + 1; i < b; i++ { inner loop }`), which is all that `sort.Sort` does on a slice
of at most 6 elements in every Go release (of at most 12 since Go 1.19). -/
def insertionSort {α : Type} (less : α → α → Bool) (data : List α) : List α :=
  (List.range' 1 (data.length - 1)).foldl (fun d i => insertionInner less i d) data

/-- The documented contract of `sort.Sort`: the result is a rearrangement of the input and,
when `Less` is a strict weak ordering (asymmetric, with a transitive complement), no
element is less than one placed before it. -/
def SortContract (sort : (LongPost → LongPost → Bool) → List LongPost → List LongPost) : Prop :=
  (∀ less l, (sort less l).Perm l) ∧
  (∀ less l, (∀ a b, less a b = true → less b a = false) →
    (∀ a b c, less a b = false → less b c = false → less a c = false) →
    (sort less l).Pairwise (fun a b => less b a = false))

/-! ## `posts`, `filter`, `getPosts` -/

/-- The method `posts.Less`: `p[i].PublishDate.Before(p[j].PublishDate)`. -/
def posts.Less (a b : LongPost) : Bool := decide (a.PublishDate < b.PublishDate)

/-- The condition under which `filter` discards an entry:
`file[i].IsDir() || filepath.Ext(file[i].Name()) != ".md"`. -/
def dropped (f : FileInfo) : Bool := f.isDir || Ext f.name != ".md"

/-- The assignment `file[i], file = file[len(file)-1], file[:len(file)-1]`. -/
def moveLast (file : List FileInfo) (i : Nat) (h : i < file.length) : List FileInfo :=
  (file.set i (file.get ⟨file.length - 1, by omega⟩)).take (file.length - 1)

/-- The loop of `filter`, `for i := 0; i < len(file); { ... }`. Every iteration lowers
`len(file) - i` by one, which `fuel` bounds; with no fuel left the loop condition is
false. -/
def filterLoop : (fuel : Nat) → (file : List FileInfo) → (i : Nat) →
    file.length - i ≤ fuel → List FileInfo
  | 0, file, _, _ => file
  | fuel + 1, file, i, h =>
    if hi : i < file.length then
      if dropped file[i] then
        filterLoop fuel (moveLast file i hi) i (by simp [moveLast]; omega)
      else
        filterLoop fuel file (i + 1) (by omega)
    else file

/-- The function `filter`. -/
def filter (file : List FileInfo) : List FileInfo :=
  filterLoop file.length file 0 (by omega)

/-- The loading loop of `getPosts`: a file whose `newLongPost` fails is skipped (and
logged), the post of any other file is appended. -/
def loadPosts (env : Env) (files : List FileInfo) : List LongPost :=
  files.foldl
    (fun allPosts file =>
      match env.newLongPost file with
      | .error _ => allPosts
      | .ok longPost => allPosts ++ [longPost])
    []

/-- The clamped count of `getPosts`:
`recent := config.RecentPostsCount; if length < recent { recent = length }`. -/
def recentCount (cfg : Config) (length : Nat) : Int :=
  if (length : Int) < cfg.RecentPostsCount then (length : Int) else cfg.RecentPostsCount

/-- The function `getPosts`; `none` is the panic of the slice expression
`allPosts[:recent]` when `recent` is not within `0 .. cap(allPosts)`, the capacity being
`len(files)`. -/
def getPosts (env : Env) (cfg : Config) (files : List FileInfo) :
    Option (List LongPost × List LongPost) :=
  let allPosts := env.sortSort (reverseLess posts.Less) (loadPosts env files)
  let recent := recentCount cfg allPosts.length
  if 0 ≤ recent ∧ recent ≤ (files.length : Int) then
    some (allPosts, allPosts.take recent.toNat)
  else none

/-! ## The output directory -/

/-- The keys of the map `specFiles`. -/
def specFiles : List String :=
  ["favicon.ico", "robots.txt", "humans.txt", "apple-touch-icon.png"]

/-- The call `os.Remove(filepath.Join(PublicDir, name))` for the name of a listed file. -/
def osRemove (env : Env) (dir : Dir) (name : String) : Except String Dir :=
  if dir.any (fun e => e.name == name) then
    match env.removeErr name with
    | some err => .error err
    | none => .ok (dir.filter (fun e => e.name != name))
  else .error "no such file or directory"

/-- The function `clearPublishDir` after a successful listing: the loop over `files`. -/
def clearLoop (env : Env) : List Entry → Dir → Dir × Option String
  | [], dir => (dir, none)
  | file :: files, dir =>
    if !file.isDir && !HasPrefix file.name "." then
      if !specFiles.contains file.name then
        match osRemove env dir file.name with
        | .error err => (dir, some ("Error deleting file " ++ file.name ++ ": " ++ err))
        | .ok dir1 => clearLoop env files dir1
      else clearLoop env files dir
    else clearLoop env files dir

/-- The function `clearPublishDir`: the directory it leaves and the error it returns. -/
def clearPublishDir (env : Env) (dir : Dir) : Dir × Option String :=
  match env.readPublicErr with
  | some err => (dir, some ("Error while getting public directory files: " ++ err))
  | none => clearLoop env dir dir

/-- Whether `name` is one path element: not empty, not `.` or `..`, without separator. -/
def plainName (name : String) : Bool :=
  name != "" && name != "." && name != ".." && !name.data.contains '/'

/-- The elements of a path, split at the separator; `cur` is the element being read,
reversed. -/
def splitSlash : List Char → List Char → List String
  | [], cur => [String.mk cur.reverse]
  | c :: cs, cur =>
    if c = '/' then String.mk cur.reverse :: splitSlash cs [] else splitSlash cs (c :: cur)

/-- The lexical processing of `filepath.Clean` on the elements appended to a rooted clean
path, whose elements are on `stack`, last one first: an empty element and `.` are dropped,
`..` removes the element before it (none at the root), any other element is added. -/
def cleanElems : List String → List String → List String
  | stack, [] => stack
  | stack, e :: es =>
    if e = "" ∨ e = "." then cleanElems stack es
    else if e = ".." then cleanElems stack.tail es
    else cleanElems (e :: stack) es

/-- The elements of `filepath.Join(PublicDir, name)`, that is of
`Clean(PublicDir + "/" + name)`. -/
def joinPublicDir (env : Env) (name : String) : List String :=
  (cleanElems env.publicDir.reverse (splitSlash name.data [])).reverse

/-- Where `filepath.Join(PublicDir, name)` lies: a direct entry of `PublicDir`, a path below
the direct entry `name`, `PublicDir` itself or a directory above it, or a path outside
`PublicDir`. -/
inductive Target where
  | entry (name : String)
  | below (name : String)
  | directory
  | outside
deriving DecidableEq, Repr

/-- The place of `filepath.Join(PublicDir, name)` relative to `PublicDir`. -/
def locate (env : Env) (name : String) : Target :=
  if (joinPublicDir env name).isPrefixOf env.publicDir then .directory
  else if env.publicDir.isPrefixOf (joinPublicDir env name) then
    match (joinPublicDir env name).drop env.publicDir.length with
    | [] => .directory
    | [n] => .entry n
    | n :: _ => .below n
  else .outside

/-- Everything written through a handle opened by `os.Create` on the direct entry `name`:
the content of the truncated file becomes `out`. -/
def writeFile (dir : Dir) (name : String) (out : String) : Dir :=
  dir.map (fun x => if x.name == name then { x with data := out } else x)

/-- The effect of `os.Create` on the direct entry `name`: an existing file is truncated, a
missing one is created empty, a directory is refused. -/
def createEntry (dir : Dir) (name : String) : Except String Dir :=
  match dir.find? (fun e => e.name == name) with
  | some e => if e.isDir then .error "is a directory" else .ok (writeFile dir name "")
  | none => .ok (dir ++ [{ name := name, isDir := false, data := "" }])

/-- The call `os.Create(filepath.Join(PublicDir, name))`, as seen in the listing of
`PublicDir`. A path that is `PublicDir` or above it is a directory and is refused; a direct
entry is created or truncated; a path below a direct entry needs that entry to exist and
then, like a path outside `PublicDir`, succeeds or fails as the environment decides and
leaves the listing as it is. -/
def osCreate (env : Env) (dir : Dir) (name : String) : Except String Dir :=
  match locate env name with
  | .directory => .error "is a directory"
  | .entry n =>
    match env.createErr name with
    | some err => .error err
    | none => createEntry dir n
  | .below n =>
    if dir.any (fun e => e.name == n) then
      match env.createErr name with
      | some err => .error err
      | none => .ok dir
    else .error "no such file or directory"
  | .outside =>
    match env.createErr name with
    | some err => .error err
    | none => .ok dir

/-- Everything written through a handle opened by `os.Create` on
`filepath.Join(PublicDir, name)`: the listing changes only when the path is a direct
entry. -/
def writeTo (env : Env) (dir : Dir) (name : String) (out : String) : Dir :=
  match locate env name with
  | .entry n => writeFile dir n out
  | _ => dir

/-- The status of a call that returns `err`. -/
def statusOf : Option String → Status
  | none => .ok
  | some err => .error err

/-! ## Page and feed generation -/

/-- The function `generateFile`: creates the file named by the post's `Slug`, for
`index` also `index.html`, and executes the template once into the writer over both. -/
def generateFile (env : Env) (pt : PostTempalte) (index : Bool) (dir : Dir) : Dir × Status :=
  match pt.Post with
  | none => (dir, .panic)
  | some post =>
    match osCreate env dir post.Slug with
    | .error err => (dir, .error ("Error creating static file " ++ post.Slug ++ ": " ++ err))
    | .ok dir1 =>
      if index then
        match osCreate env dir1 "index.html" with
        | .error err => (dir1, .error ("Error creating static file index.html: " ++ err))
        | .ok dir2 =>
          (writeTo env (writeTo env dir2 post.Slug (env.render pt).1) "index.html"
              (env.render pt).1,
            statusOf (env.render pt).2)
      else (writeTo env dir1 post.Slug (env.render pt).1, statusOf (env.render pt).2)

/-- Modelled from the spec: `WriteToFile` (declared outside `lib/site.go`) serialises the
feed to the file `filepath.Join(PublicDir, name)`; a failure is returned as an error. -/
def rssWriteToFile (env : Env) (rss : Rss) (name : String) (dir : Dir) : Dir × Status :=
  match osCreate env dir name with
  | .error err => (dir, .error err)
  | .ok dir1 => (writeTo env dir1 name (env.serialize rss), .ok)

/-- The loop of `generateRss` over `pt.Recent`: the feed after the loop, or the status
with which the function ends inside it. -/
def rssLoop (env : Env) (base : env.url.URL) : List LongPost → Rss → Except Status Rss
  | [], rss => .ok rss
  | p :: ps, rss =>
    match env.url.ParseRef base p.Slug with
    | .error err => .error (.error ("Error parsing post URL: " ++ err))
    | .ok u =>
      match appendToFirstChannel rss
          (NewRssItem p.Title p.Description (env.url.toStr u) p.Author "" p.PublishDate) with
      | none => .error .panic
      | some rss1 => rssLoop env base ps rss1

/-- The function `generateRss`. -/
def generateRss (env : Env) (cfg : Config) (pt : PostTempalte) (dir : Dir) : Dir × Status :=
  match env.url.Parse cfg.BaseURL with
  | .error err => (dir, .error ("Error parsing base URL: " ++ err))
  | .ok base =>
    match rssLoop env base pt.Recent (NewRss cfg.SiteName cfg.Slogan cfg.BaseURL) with
    | .error st => (dir, st)
    | .ok rss => rssWriteToFile env rss "rss.xml" dir

/-- The function `storeRssURL`: the value stored in `RssURL`. Both errors are dropped by
the code, after which the nil `*URL` is used: `none` is that panic. -/
def storeRssURL (env : Env) (cfg : Config) : Option String :=
  match env.url.Parse cfg.BaseURL with
  | .error _ => none
  | .ok base =>
    match env.url.ParseRef base "/rss" with
    | .error _ => none
    | .ok rss => some (env.url.toStr rss)

/-- The page loop of `GenerateSite`, `for i, p := range allPosts`, from index `i`. -/
def generatePages (env : Env) (recent all : List LongPost) :
    Nat → List LongPost → Dir → Dir × Status
  | _, [], dir => (dir, .ok)
  | i, p :: ps, dir =>
    match generateFile env (newPostTempalte (some p) i recent all) (i == 0) dir with
    | (dir1, .ok) => generatePages env recent all (i + 1) ps dir1
    | (dir1, st) => (dir1, st)

/-- The function `GenerateSite`: the output directory it leaves and how it ends. -/
def GenerateSite (env : Env) (cfg : Config) (pub : Dir) : Dir × Status :=
  match storeRssURL env cfg with
  | none => (pub, .panic)
  | some _ =>
    if !env.templatesOk then (pub, .panic)
    else
      match env.readPostsDir with
      | .error err => (pub, .error err)
      | .ok files =>
        match getPosts env cfg (filter files) with
        | none => (pub, .panic)
        | some (allPosts, recentPosts) =>
          match clearPublishDir env pub with
          | (dir1, some err) => (dir1, .error err)
          | (dir1, none) =>
            match generatePages env recentPosts allPosts 0 allPosts dir1 with
            | (dir2, .ok) => generateRss env cfg (newPostTempalte none 0 recentPosts allPosts) dir2
            | (dir2, st) => (dir2, st)

/-! ## Predicates used in the statements -/

/-- An entry `clearPublishDir` deletes: a file that is neither hidden nor reserved. -/
def removable (e : Entry) : Bool :=
  !e.isDir && !HasPrefix e.name "." && !specFiles.contains e.name

/-- A name `clearPublishDir` never deletes: hidden or reserved. -/
def keptName (name : String) : Bool :=
  HasPrefix name "." || specFiles.contains name

/-- The item `generateRss` appends for a post whose link resolved to `u`. -/
def itemOf (env : Env) (p : LongPost) (u : env.url.URL) : RssItem :=
  NewRssItem p.Title p.Description (env.url.toStr u) p.Author "" p.PublishDate

/-- The feed `generateRss` hands to `WriteToFile` when its items are `items`. -/
def feedOf (cfg : Config) (items : List RssItem) : Rss :=
  { Channels := [{ Title := cfg.SiteName, Description := cfg.Slogan, Link := cfg.BaseURL,
                   Items := items }] }

/-- Number of posts of `ps` whose Slug is `name`. -/
def slugCount (ps : List LongPost) (name : String) : Nat :=
  (ps.filter (fun p => p.Slug == name)).length

/-! ## Concrete inputs of the examples -/

/-- A stand-in for `net/url` on the references of the examples: a reference with a leading
colon is rejected with the error of `url.Parse` (`parse "<ref>": missing protocol scheme`),
a rooted reference replaces the path of the base, any other is appended to a base that ends
in a slash. -/
def exampleUrl : UrlLib :=
  { URL := String
    Parse := fun s =>
      if s.data.head? = some ':' then .error ("parse \"" ++ s ++ "\": missing protocol scheme")
      else .ok s
    ParseRef := fun base ref =>
      if ref.data.head? = some ':' then
        .error ("parse \"" ++ ref ++ "\": missing protocol scheme")
      else if ref.data.head? = some '/' then .ok ("http://example.com" ++ ref)
      else .ok (base ++ ref)
    toStr := fun u => u }

/-- A post with the given Slug and publication instant. -/
def examplePost (slug : String) (date : Int) : LongPost :=
  { Slug := slug, Title := "T-" ++ slug, Description := "D-" ++ slug, Author := "me",
    PublishDate := date, Content := "" }

/-- A loader given by an explicit table from file name to post; a file that is not in the
table does not parse. -/
def exampleLoader (table : List (String × LongPost)) (f : FileInfo) : Except String LongPost :=
  match table.find? (fun row => row.1 == f.name) with
  | some row => .ok row.2
  | none => .error "unparsable date"

/-- An environment in which no machine operation fails: `sort.Sort` runs its insertion
sort, a page renders to its index and title, a feed serialises to its item links. -/
def exampleEnv (files : List FileInfo) (table : List (String × LongPost)) : Env :=
  { url := exampleUrl
    sortSort := insertionSort
    newLongPost := exampleLoader table
    readPostsDir := .ok files
    templatesOk := true
    render := fun pt =>
      (match pt.Post with
        | some p => "page " ++ toString pt.Idx ++ " " ++ p.Title
        | none => "", none)
    readPublicErr := none
    removeErr := fun _ => none
    publicDir := ["srv", "site", "public"]
    createErr := fun _ => none
    serialize := fun rss =>
      String.join (rss.Channels.map (fun c => String.join (c.Items.map (fun i => i.Link ++ ";")))) }

/-- A configuration with `RecentPostsCount = 2`. -/
def exampleCfg : Config :=
  { SiteName := "site", Slogan := "slogan", BaseURL := "http://example.com/",
    RecentPostsCount := 2 }

/-- Three markdown files, a directory and a file with another extension. -/
def exampleFiles : List FileInfo :=
  [⟨"one.md", false⟩, ⟨"notes.txt", false⟩, ⟨"two.md", false⟩, ⟨"drafts.md", true⟩,
   ⟨"three.md", false⟩, ⟨"broken.md", false⟩]

/-- Posts dated 1 < 2 < 3 for the three markdown files; `broken.md` does not load. -/
def exampleTable : List (String × LongPost) :=
  [("one.md", examplePost "one" 1), ("two.md", examplePost "two" 2),
   ("three.md", examplePost "three" 3)]

/-- An output directory with a stale page, a hidden file, a directory and a reserved
file. -/
def examplePublic : Dir :=
  [⟨"old-post", false, "stale"⟩, ⟨".htaccess", false, "deny"⟩, ⟨"css", true, ""⟩,
   ⟨"favicon.ico", false, "ICON"⟩, ⟨"index.html", false, "stale index"⟩]

/-- Two posts with distinct Slugs and the same PublishDate. -/
def tieTable : List (String × LongPost) :=
  [("a.md", examplePost "a" 5), ("b.md", examplePost "b" 5)]

/-- Two files; the older post has the Slug `index.html`. -/
def indexFiles : List FileInfo := [⟨"a.md", false⟩, ⟨"b.md", false⟩]

/-- The posts of `indexFiles`. -/
def indexTable : List (String × LongPost) :=
  [("a.md", examplePost "a" 2), ("b.md", examplePost "index.html" 1)]

/-- Two posts whose Slugs are the names of a reserved file and of a hidden file. -/
def reservedTable : List (String × LongPost) :=
  [("a.md", examplePost "favicon.ico" 2), ("b.md", examplePost ".htaccess" 1)]

/-- Two posts with the same Slug. -/
def sameSlugTable : List (String × LongPost) :=
  [("a.md", examplePost "x" 2), ("b.md", { examplePost "x" 1 with Title := "second" })]

/-- Two posts; the Slug of the newer one is a path below the directory `css`. -/
def nestedTable : List (String × LongPost) :=
  [("a.md", examplePost "css/page" 2), ("b.md", examplePost "b" 1)]

/-- The render context of the feed pass of the example directory. -/
def exampleFeedContext : PostTempalte :=
  newPostTempalte none 0 [examplePost "three" 3, examplePost "two" 2]
    [examplePost "three" 3, examplePost "two" 2, examplePost "one" 1]

/-! ## Lemmas on the sorting model -/

theorem getElem?_mid {α : Type} (A : List α) (y x : α) (T : List α) :
    (A ++ y :: x :: T)[A.length + 1]? = some x ∧ (A ++ y :: x :: T)[A.length]? = some y := by
  constructor
  · rw [List.getElem?_append_right (by omega)]
    simp
  · rw [List.getElem?_append_right (by omega)]
    simp

theorem swap_mid {α : Type} (A : List α) (y x : α) (T : List α) :
    swap (A ++ y :: x :: T) (A.length + 1) A.length = A ++ x :: y :: T := by
  unfold swap
  obtain ⟨h1, h2⟩ := getElem?_mid A y x T
  rw [h1, h2]
  simp only
  rw [List.set_append_right _ _ (by omega)]
  rw [List.set_append_right _ _ (by omega)]
  simp

theorem insertionInner_spec {α : Type} (less : α → α → Bool)
    (hasym : ∀ a b, less a b = true → less b a = false)
    (hneg : ∀ a b c, less a b = false → less b c = false → less a c = false) :
    ∀ (j : Nat) (A : List α) (x : α) (B C : List α), A.length = j →
      (A ++ B).Pairwise (fun a b => less b a = false) → (∀ b ∈ B, less x b = true) →
      ∃ S, insertionInner less j (A ++ x :: (B ++ C)) = S ++ C ∧ S.Perm (A ++ x :: B) ∧
        S.Pairwise (fun a b => less b a = false) := by
  intro j
  induction j with
  | zero =>
    intro A x B C hA hp hB
    have : A = [] := List.length_eq_zero.mp hA
    subst this
    refine ⟨x :: B, by simp [insertionInner], List.Perm.refl _, ?_⟩
    simp only [List.nil_append] at hp
    exact List.pairwise_cons.mpr ⟨fun b hb => hasym _ _ (hB b hb), hp⟩
  | succ j ih =>
    intro A x B C hA hp hB
    rcases List.eq_nil_or_concat A with hnil | ⟨A', y, hy⟩
    · subst hnil; simp at hA
    rw [List.concat_eq_append] at hy
    subst hy
    have hA' : A'.length = j := by simpa using hA
    subst hA'
    have hdata : A' ++ [y] ++ x :: (B ++ C) = A' ++ y :: x :: (B ++ C) := by simp
    obtain ⟨h1, h2⟩ := getElem?_mid A' y x (B ++ C)
    rw [hdata]
    unfold insertionInner
    rw [h1, h2]
    simp only
    by_cases hl : less x y = true
    · rw [if_pos hl, swap_mid]
      have hp' : (A' ++ y :: B).Pairwise (fun a b => less b a = false) := by
        simpa using hp
      obtain ⟨S, hS, hperm, hsorted⟩ := ih A' x (y :: B) C rfl hp'
        (by intro b hb; rcases List.mem_cons.mp hb with h | h
            · subst h; exact hl
            · exact hB b h)
      refine ⟨S, by simpa using hS, hperm.trans ?_, hsorted⟩
      simp only [List.append_assoc, List.singleton_append]
      exact List.Perm.append_left _ (List.Perm.swap _ _ _)
    · rw [if_neg hl]
      have hl' : less x y = false := by simpa using hl
      refine ⟨A' ++ y :: x :: B, by simp, by simp, ?_⟩
      have hp' : (A' ++ y :: B).Pairwise (fun a b => less b a = false) := by
        simpa using hp
      rw [List.pairwise_append] at hp' ⊢
      obtain ⟨hpa, hpb, hab⟩ := hp'
      rw [List.pairwise_cons] at hpb
      refine ⟨hpa, ?_, ?_⟩
      · refine List.pairwise_cons.mpr ⟨?_, List.pairwise_cons.mpr ⟨?_, hpb.2⟩⟩
        · intro b hb
          rcases List.mem_cons.mp hb with h | h
          · subst h; exact hl'
          · exact hpb.1 b h
        · intro b hb
          exact hasym _ _ (hB b hb)
      · intro a ha b hb
        rcases List.mem_cons.mp hb with h | h
        · rw [h]; exact hab a ha y (List.mem_cons_self _ _)
        rcases List.mem_cons.mp h with h | h
        · rw [h]
          exact hneg _ _ _ hl' (hab a ha y (List.mem_cons_self _ _))
        · exact hab a ha b (List.mem_cons_of_mem _ h)

theorem insertionOuter_spec {α : Type} (less : α → α → Bool)
    (hasym : ∀ a b, less a b = true → less b a = false)
    (hneg : ∀ a b c, less a b = false → less b c = false → less a c = false) :
    ∀ (C S : List α), S.Pairwise (fun a b => less b a = false) →
      ∃ R, (List.range' S.length C.length).foldl (fun d i => insertionInner less i d) (S ++ C) = R ∧
        R.Perm (S ++ C) ∧ R.Pairwise (fun a b => less b a = false) := by
  intro C
  induction C with
  | nil =>
    intro S hS
    exact ⟨S, by simp, by simp, hS⟩
  | cons x C ih =>
    intro S hS
    obtain ⟨S', hS', hperm, hsorted⟩ :=
      insertionInner_spec less hasym hneg S.length S x [] C rfl (by simpa using hS) (by simp)
    have hlen : S'.length = S.length + 1 := by
      have := hperm.length_eq
      simpa using this
    obtain ⟨R, hR, hRperm, hRsorted⟩ := ih S' hsorted
    refine ⟨R, ?_, hRperm.trans ?_, hRsorted⟩
    · simp only [List.length_cons, List.range'_succ, List.foldl_cons]
      simp only [List.nil_append] at hS'
      rw [hS', ← hlen]
      exact hR
    · have := hperm.append_right C
      simpa using this

theorem insertionSort_perm_sorted {α : Type} (less : α → α → Bool)
    (hasym : ∀ a b, less a b = true → less b a = false)
    (hneg : ∀ a b c, less a b = false → less b c = false → less a c = false)
    (data : List α) :
    (insertionSort less data).Perm data ∧
      (insertionSort less data).Pairwise (fun a b => less b a = false) := by
  cases data with
  | nil => simp [insertionSort]
  | cons d rest =>
    obtain ⟨R, hR, hperm, hsorted⟩ :=
      insertionOuter_spec less hasym hneg rest [d] (by simp)
    simp only [List.length_singleton, List.singleton_append] at hR hperm
    unfold insertionSort
    simp only [List.length_cons, Nat.add_sub_cancel]
    rw [hR]
    exact ⟨hperm, hsorted⟩

theorem split_adjacent {α : Type} (data : List α) (j : Nat) (x y : α)
    (hx : data[j + 1]? = some x) (hy : data[j]? = some y) :
    data = data.take j ++ y :: x :: data.drop (j + 2) ∧ (data.take j).length = j := by
  obtain ⟨hx', hxe⟩ := List.getElem?_eq_some_iff.mp hx
  obtain ⟨hy', hye⟩ := List.getElem?_eq_some_iff.mp hy
  constructor
  · have h1 : data.drop j = y :: data.drop (j + 1) := by
      rw [← hye]; simp
    have h2 : data.drop (j + 1) = x :: data.drop (j + 2) := by
      rw [← hxe]; simp
    calc data = data.take j ++ data.drop j := (List.take_append_drop j data).symm
      _ = data.take j ++ y :: x :: data.drop (j + 2) := by rw [h1, h2]
  · simp; omega

theorem swap_adjacent_perm {α : Type} (data : List α) (j : Nat) (x y : α)
    (hx : data[j + 1]? = some x) (hy : data[j]? = some y) :
    (swap data (j + 1) j).Perm data := by
  obtain ⟨hsplit, hlen⟩ := split_adjacent data j x y hx hy
  generalize data.take j = A at hsplit hlen
  generalize data.drop (j + 2) = T at hsplit
  subst hsplit
  subst hlen
  rw [swap_mid]
  exact List.Perm.append_left _ (List.Perm.swap _ _ _)

theorem insertionInner_perm {α : Type} (less : α → α → Bool) :
    ∀ (j : Nat) (data : List α), (insertionInner less j data).Perm data := by
  intro j
  induction j with
  | zero => intro data; simp [insertionInner]
  | succ j ih =>
    intro data
    unfold insertionInner
    split
    · rename_i x y hx hy
      split
      · exact (ih _).trans (swap_adjacent_perm _ _ x y hx hy)
      · exact List.Perm.refl _
    · exact List.Perm.refl _

theorem insertionSort_perm {α : Type} (less : α → α → Bool) (data : List α) :
    (insertionSort less data).Perm data := by
  unfold insertionSort
  generalize List.range' 1 (data.length - 1) = is
  induction is generalizing data with
  | nil => simp
  | cons i is ih =>
    simp only [List.foldl_cons]
    exact (ih _).trans (insertionInner_perm less i data)

theorem insertionSort_contract : SortContract insertionSort :=
  ⟨fun less l => insertionSort_perm less l,
   fun less l hasym hneg => (insertionSort_perm_sorted less hasym hneg l).2⟩

/-! ## Lemmas on `filter` and `getPosts` -/

theorem moveLast_append (pre rest : List FileInfo) (x : FileInfo)
    (h : pre.length < (pre ++ x :: rest).length) :
    ∃ L, moveLast (pre ++ x :: rest) pre.length h = pre ++ L ∧ L.Perm rest := by
  rcases List.eq_nil_or_concat rest with hr | ⟨r, l, hr⟩
  · subst hr
    refine ⟨[], ?_, List.Perm.refl _⟩
    simp [moveLast]
  · rw [List.concat_eq_append] at hr
    subst hr
    refine ⟨l :: r, ?_, ?_⟩
    · have hlen : (pre ++ x :: (r ++ [l])).length - 1 = (pre ++ l :: r).length := by
        simp
      have hget : (pre ++ x :: (r ++ [l])).get ⟨(pre ++ x :: (r ++ [l])).length - 1, by omega⟩ = l := by
        have : pre ++ x :: (r ++ [l]) = (pre ++ x :: r) ++ [l] := by simp
        simp only [this, List.get_eq_getElem]
        rw [List.getElem_append_right (by simp)]
        simp
      unfold moveLast
      rw [hget, hlen]
      have : (pre ++ x :: (r ++ [l])).set pre.length l = (pre ++ l :: r) ++ [l] := by
        simp [List.set_append_right]
      rw [this, List.take_left]
    · simpa using (List.perm_append_singleton l r).symm

theorem filterLoop_perm (fuel : Nat) : ∀ (file : List FileInfo) (i : Nat)
    (h : file.length - i ≤ fuel),
    (filterLoop fuel file i h).Perm
      (file.take i ++ (file.drop i).filter (fun f => !dropped f)) := by
  induction fuel with
  | zero =>
    intro file i h
    have : file.length ≤ i := by omega
    simp [filterLoop, List.take_of_length_le this, List.drop_of_length_le this]
  | succ n ih =>
    intro file i h
    unfold filterLoop
    by_cases hi : i < file.length
    · simp only [hi, dite_true]
      have hsplit : file = file.take i ++ file[i] :: file.drop (i + 1) := by
        simp
      have hlen : (file.take i).length = i := by simp; omega
      by_cases hd : dropped file[i] = true
      · simp only [hd, if_true]
        refine (ih _ _ _).trans ?_
        generalize hx : file[i] = x at hd hsplit
        generalize hp : file.take i = pre at hsplit hlen
        generalize hr : file.drop (i + 1) = rest at hsplit
        have hdrop : file.drop i = x :: rest := by
          rw [hsplit, ← hlen]; simp
        rw [hdrop]
        subst hsplit
        subst hlen
        obtain ⟨L, hL, hperm⟩ := moveLast_append pre rest x hi
        rw [hL]
        simp [hd, List.take_left, List.drop_left]
        exact (hperm.filter _).append_left _
      · simp only [hd]
        refine (ih _ _ _).trans ?_
        have hd' : (!dropped file[i]) = true := by simpa using hd
        rw [List.take_succ, List.getElem?_eq_getElem hi]
        rw [show List.drop i file = file[i] :: List.drop (i+1) file from by simp]
        rw [@List.filter_cons_of_pos _ (fun f => !dropped f) _ _ hd']
        simp only [Option.toList, List.append_assoc, List.singleton_append]
        exact List.Perm.refl _
    · simp only [hi, dite_false]
      have : file.length ≤ i := by omega
      simp [List.take_of_length_le this, List.drop_of_length_le this]


theorem extLoop_suffix : ∀ (r acc : List Char), extLoop r acc = [] ∨
    ∃ s, r.reverse ++ acc = s ++ extLoop r acc := by
  intro r
  induction r with
  | nil => intro acc; left; rfl
  | cons c rest ih =>
    intro acc
    unfold extLoop
    by_cases h1 : c = '/'
    · left; simp [h1]
    · by_cases h2 : c = '.'
      · right
        refine ⟨rest.reverse, ?_⟩
        simp [h1, h2]
      · simp only [h1, h2, if_false]
        rcases ih (c :: acc) with h | ⟨s, hs⟩
        · left; exact h
        · right
          exact ⟨s, by simpa using hs⟩

theorem Ext_eq_md_iff (name : String) :
    Ext name = ".md" ↔ ∃ s : List Char, name.data = s ++ ['.', 'm', 'd'] := by
  constructor
  · intro h
    have h1 : extLoop name.data.reverse [] = ['.', 'm', 'd'] := by
      have := congrArg String.data h
      simpa [Ext] using this
    rcases extLoop_suffix name.data.reverse [] with h2 | ⟨s, hs⟩
    · rw [h1] at h2; simp at h2
    · rw [h1] at hs
      exact ⟨s, by simpa using hs⟩
  · rintro ⟨s, hs⟩
    have : extLoop name.data.reverse [] = ['.', 'm', 'd'] := by
      rw [hs]
      simp [extLoop]
    unfold Ext
    rw [this]

theorem loadPosts_foldl (env : Env) (files : List FileInfo) : ∀ acc : List LongPost,
    files.foldl
      (fun allPosts file =>
        match env.newLongPost file with
        | .error _ => allPosts
        | .ok longPost => allPosts ++ [longPost]) acc
    = acc ++ files.filterMap (fun f => (env.newLongPost f).toOption) := by
  induction files with
  | nil => intro acc; simp
  | cons f fs ih =>
    intro acc
    simp only [List.foldl_cons]
    rw [ih]
    cases h : env.newLongPost f with
    | error e => simp [List.filterMap_cons, h, Except.toOption]
    | ok p => simp [List.filterMap_cons, h, Except.toOption]

theorem loadPosts_eq (env : Env) (files : List FileInfo) :
    loadPosts env files = files.filterMap (fun f => (env.newLongPost f).toOption) := by
  unfold loadPosts
  rw [loadPosts_foldl]
  simp

theorem reverseLess_asymm (a b : LongPost) :
    reverseLess posts.Less a b = true → reverseLess posts.Less b a = false := by
  simp only [reverseLess, posts.Less, decide_eq_true_eq, decide_eq_false_iff_not]
  omega

theorem reverseLess_negTrans (a b c : LongPost) :
    reverseLess posts.Less a b = false → reverseLess posts.Less b c = false →
      reverseLess posts.Less a c = false := by
  simp only [reverseLess, posts.Less, decide_eq_false_iff_not]
  omega

theorem sorted_newest_first (env : Env) (hs : SortContract env.sortSort) (l : List LongPost) :
    (env.sortSort (reverseLess posts.Less) l).Pairwise
      (fun a b => a.PublishDate ≤ b.PublishDate → a.PublishDate = b.PublishDate) := by
  refine (hs.2 (reverseLess posts.Less) l reverseLess_asymm reverseLess_negTrans).imp ?_
  intro a b h
  simp only [reverseLess, posts.Less, decide_eq_false_iff_not] at h
  omega

theorem index_lt_of_pairwise {l : List LongPost}
    (hp : l.Pairwise (fun a b => a.PublishDate ≤ b.PublishDate → a.PublishDate = b.PublishDate))
    (i j : Nat) (hi : i < l.length) (hj : j < l.length)
    (hlt : l[j].PublishDate < l[i].PublishDate) : i < j := by
  rcases Nat.lt_trichotomy i j with h | h | h
  · exact h
  · subst h; omega
  · have := List.pairwise_iff_getElem.mp hp j i hj hi h
    omega

theorem getPosts_eq (env : Env) (cfg : Config) (files : List FileInfo)
    (hs : SortContract env.sortSort) (hc : 0 ≤ cfg.RecentPostsCount) :
    getPosts env cfg files =
      some (env.sortSort (reverseLess posts.Less) (loadPosts env files),
        (env.sortSort (reverseLess posts.Less) (loadPosts env files)).take
          (min cfg.RecentPostsCount.toNat
            (env.sortSort (reverseLess posts.Less) (loadPosts env files)).length)) := by
  have hlen : (env.sortSort (reverseLess posts.Less) (loadPosts env files)).length
      ≤ files.length := by
    rw [(hs.1 _ _).length_eq, loadPosts_eq]
    exact List.length_filterMap_le _ _
  unfold getPosts
  simp only
  generalize env.sortSort (reverseLess posts.Less) (loadPosts env files) = all at hlen
  have hcond : 0 ≤ recentCount cfg all.length ∧ recentCount cfg all.length ≤ (files.length : Int) := by
    unfold recentCount
    split <;> omega
  rw [if_pos hcond]
  congr 2
  unfold recentCount
  split
  · rename_i h
    simp only [Int.toNat_ofNat]
    rw [Nat.min_eq_right (by omega)]
  · rename_i h
    rw [Nat.min_eq_left (by omega)]

/-! ## Lemmas on paths -/

theorem splitSlash_plain : ∀ (cs cur : List Char), cs.contains '/' = false →
    splitSlash cs cur = [String.mk (cur.reverse ++ cs)] := by
  intro cs
  induction cs with
  | nil => intro cur _; simp [splitSlash]
  | cons c cs ih =>
    intro cur h
    have hc : c ≠ '/' := by
      intro hc; subst hc; simp at h
    have hcs : cs.contains '/' = false := by
      simp only [List.contains_eq_any_beq, List.any_cons, Bool.or_eq_false_iff] at h ⊢
      exact h.2
    rw [splitSlash, if_neg hc, ih _ hcs]
    simp

theorem joinPublicDir_plain (env : Env) (name : String) (h : plainName name = true) :
    joinPublicDir env name = env.publicDir ++ [name] := by
  unfold plainName at h
  simp only [Bool.and_eq_true, bne_iff_ne, ne_eq, Bool.not_eq_true'] at h
  obtain ⟨⟨⟨h1, h2⟩, h3⟩, h4⟩ := h
  unfold joinPublicDir
  rw [splitSlash_plain _ _ h4]
  simp only [List.reverse_nil, List.nil_append]
  have : String.mk name.data = name := rfl
  rw [this]
  simp [cleanElems, h1, h2, h3]

theorem locate_plain (env : Env) (name : String) (h : plainName name = true) :
    locate env name = .entry name := by
  unfold locate
  rw [joinPublicDir_plain env name h]
  have h1 : (env.publicDir ++ [name]).isPrefixOf env.publicDir = false := by
    rw [Bool.eq_false_iff]
    intro hp
    have hp2 : env.publicDir ++ [name] <+: env.publicDir := List.isPrefixOf_iff_prefix.mp hp
    have := hp2.length_le
    simp at this
  have h2 : env.publicDir.isPrefixOf (env.publicDir ++ [name]) = true :=
    List.isPrefixOf_iff_prefix.mpr ( List.prefix_append _ _)
  rw [h1, h2]
  simp

theorem locate_index (env : Env) : locate env "index.html" = .entry "index.html" :=
  locate_plain env "index.html" (by decide)

theorem locate_rss (env : Env) : locate env "rss.xml" = .entry "rss.xml" :=
  locate_plain env "rss.xml" (by decide)

/-! ## Lemmas on the output directory -/

theorem osRemove_ok {env : Env} {dir dir1 : Dir} {name : String}
    (h : osRemove env dir name = .ok dir1) : dir1 = dir.filter (fun e => e.name != name) := by
  unfold osRemove at h
  split at h
  · split at h
    · cases h
    · cases h; rfl
  · cases h

theorem clearLoop_step (env : Env) (file : Entry) (files : List Entry) (dir : Dir) :
    clearLoop env (file :: files) dir =
      if removable file then
        match osRemove env dir file.name with
        | .error err => (dir, some ("Error deleting file " ++ file.name ++ ": " ++ err))
        | .ok dir1 => clearLoop env files dir1
      else clearLoop env files dir := by
  rw [clearLoop]
  unfold removable
  cases file.isDir <;> cases HasPrefix file.name "." <;> cases specFiles.contains file.name <;> rfl

theorem clearLoop_ok (env : Env) : ∀ (files : List Entry) (dir dir1 : Dir),
    clearLoop env files dir = (dir1, none) →
    dir1 = dir.filter (fun e => !files.any (fun f => removable f && f.name == e.name)) := by
  intro files
  induction files with
  | nil =>
    intro dir dir1 h
    simp only [clearLoop, Prod.mk.injEq, and_true] at h
    simp [h]
  | cons f fs ih =>
    intro dir dir1 h
    rw [clearLoop_step] at h
    by_cases hr : removable f = true
    · rw [if_pos hr] at h
      cases ho : osRemove env dir f.name with
      | error err => rw [ho] at h; simp at h
      | ok d =>
        rw [ho] at h
        simp only at h
        rw [ih d dir1 h, osRemove_ok ho, List.filter_filter]
        apply List.filter_congr
        intro e _
        simp only [List.any_cons, hr, Bool.true_and]
        generalize (fs.any fun f => removable f && f.name == e.name) = X
        by_cases hn : f.name = e.name
        · simp [hn]
        · have h1 : (f.name == e.name) = false := by simpa using hn
          have h2 : (e.name != f.name) = true := by
            simpa using fun h : e.name = f.name => hn h.symm
          rw [h1, h2]
          cases X <;> rfl
    · rw [if_neg hr] at h
      rw [ih dir dir1 h]
      apply List.filter_congr
      intro e _
      have : removable f = false := by simpa using hr
      simp [this]

theorem clearLoop_mem_kept (env : Env) (e : Entry) (hk : keptName e.name = true) :
    ∀ (files : List Entry) (dir : Dir), e ∈ (clearLoop env files dir).1 ↔ e ∈ dir := by
  intro files
  induction files with
  | nil => intro dir; simp [clearLoop]
  | cons f fs ih =>
    intro dir
    rw [clearLoop_step]
    by_cases hr : removable f = true
    · rw [if_pos hr]
      cases ho : osRemove env dir f.name with
      | error err => simp
      | ok d =>
        simp only
        rw [ih d, osRemove_ok ho, List.mem_filter]
        have hne : e.name ≠ f.name := by
          intro heq
          rw [heq] at hk
          revert hr hk
          unfold removable keptName
          generalize f.isDir = a
          generalize HasPrefix f.name "." = b
          generalize specFiles.contains f.name = c
          cases a <;> cases b <;> cases c <;> simp
        simp [hne]
    · rw [if_neg hr]
      exact ih dir

theorem clearPublishDir_mem_kept (env : Env) (e : Entry) (hk : keptName e.name = true)
    (dir : Dir) : e ∈ (clearPublishDir env dir).1 ↔ e ∈ dir := by
  unfold clearPublishDir
  cases env.readPublicErr with
  | some err => simp
  | none => exact clearLoop_mem_kept env e hk dir dir

theorem clearPublishDir_ok_not_removable (env : Env) (dir dir1 : Dir)
    (h : clearPublishDir env dir = (dir1, none)) : ∀ e ∈ dir1, removable e = false := by
  unfold clearPublishDir at h
  cases hr : env.readPublicErr with
  | some err => rw [hr] at h; simp at h
  | none =>
    rw [hr] at h
    simp only at h
    rw [clearLoop_ok env dir dir dir1 h]
    intro e he
    rw [List.mem_filter] at he
    obtain ⟨hmem, hq⟩ := he
    by_contra hne
    have hre : removable e = true := by simpa using hne
    have : dir.any (fun f => removable f && f.name == e.name) = true :=
      List.any_eq_true.mpr ⟨e, hmem, by simp [hre]⟩
    simp [this] at hq

theorem writeFile_mem_ne (dir : Dir) (name out : String) (e : Entry) (hne : e.name ≠ name) :
    e ∈ writeFile dir name out ↔ e ∈ dir := by
  unfold writeFile
  rw [List.mem_map]
  constructor
  · rintro ⟨x, hx, hxe⟩
    by_cases hn : x.name = name
    · simp only [hn, beq_self_eq_true, if_true] at hxe
      exact absurd (by rw [← hxe]) hne
    · have : (x.name == name) = false := by simpa using hn
      simp only [this] at hxe
      simpa [← hxe] using hx
  · intro he
    refine ⟨e, he, ?_⟩
    have : (e.name == name) = false := by simpa using hne
    simp [this]

theorem writeTo_mem_ne (env : Env) (dir : Dir) (name out : String) (e : Entry)
    (hne : locate env name ≠ .entry e.name) : e ∈ writeTo env dir name out ↔ e ∈ dir := by
  unfold writeTo
  cases hl : locate env name with
  | entry n =>
    simp only
    apply writeFile_mem_ne
    intro h
    rw [hl, h] at hne
    exact hne rfl
  | below n => simp
  | directory => simp
  | outside => simp

theorem createEntry_mem_ne {dir dir1 : Dir} {name : String}
    (h : createEntry dir name = .ok dir1) (e : Entry) (hne : e.name ≠ name) :
    e ∈ dir1 ↔ e ∈ dir := by
  unfold createEntry at h
  split at h
  · split at h
    · cases h
    · cases h
      exact writeFile_mem_ne dir name "" e hne
  · cases h
    rw [List.mem_append]
    constructor
    · rintro (h1 | h1)
      · exact h1
      · simp only [List.mem_singleton] at h1
        rw [h1] at hne
        exact absurd rfl hne
    · intro h1; exact Or.inl h1

theorem osCreate_cases {env : Env} {dir dir1 : Dir} {name : String}
    (h : osCreate env dir name = .ok dir1) :
    (∃ n, locate env name = .entry n ∧ createEntry dir n = .ok dir1) ∨
      ((∀ n, locate env name ≠ .entry n) ∧ dir1 = dir) := by
  unfold osCreate at h
  cases hl : locate env name with
  | entry n =>
    rw [hl] at h
    simp only at h
    split at h
    · cases h
    · exact Or.inl ⟨n, rfl, h⟩
  | below n =>
    rw [hl] at h
    simp only at h
    split at h
    · split at h
      · cases h
      · cases h
        exact Or.inr ⟨fun m hm => (by cases hm), rfl⟩
    · cases h
  | directory =>
    rw [hl] at h
    cases h
  | outside =>
    rw [hl] at h
    simp only at h
    split at h
    · cases h
    · cases h
      exact Or.inr ⟨fun m hm => (by cases hm), rfl⟩

theorem osCreate_mem_ne {env : Env} {dir dir1 : Dir} {name : String}
    (h : osCreate env dir name = .ok dir1) (e : Entry)
    (hne : locate env name ≠ .entry e.name) : e ∈ dir1 ↔ e ∈ dir := by
  rcases osCreate_cases h with ⟨n, hl, hc⟩ | ⟨_, hd⟩
  · apply createEntry_mem_ne hc
    intro hn
    rw [hl, hn] at hne
    exact hne rfl
  · rw [hd]

theorem writeFile_forall (P : String → Bool → Prop) (dir : Dir) (name out : String)
    (h : ∀ e ∈ dir, P e.name e.isDir) : ∀ e ∈ writeFile dir name out, P e.name e.isDir := by
  intro e he
  unfold writeFile at he
  rw [List.mem_map] at he
  obtain ⟨x, hx, hxe⟩ := he
  by_cases hn : (x.name == name) = true
  · rw [if_pos hn] at hxe
    rw [← hxe]
    exact h x hx
  · rw [if_neg hn] at hxe
    rw [← hxe]
    exact h x hx

theorem writeFile_data (dir : Dir) (name out : String) :
    ∀ e ∈ writeFile dir name out, e.name = name → e.data = out := by
  intro e he hname
  unfold writeFile at he
  rw [List.mem_map] at he
  obtain ⟨x, hx, hxe⟩ := he
  by_cases hn : (x.name == name) = true
  · rw [if_pos hn] at hxe
    rw [← hxe]
  · rw [if_neg hn] at hxe
    rw [← hxe] at hname
    exact absurd (by simpa using hname) hn

theorem writeFile_data_keep (dir : Dir) (name other out : String)
    (h : ∀ e ∈ dir, e.name = other → e.data = out) :
    ∀ e ∈ writeFile dir name out, e.name = other → e.data = out := by
  intro e he hname
  unfold writeFile at he
  rw [List.mem_map] at he
  obtain ⟨x, hx, hxe⟩ := he
  by_cases hn : (x.name == name) = true
  · rw [if_pos hn] at hxe
    rw [← hxe]
  · rw [if_neg hn] at hxe
    rw [← hxe] at hname ⊢
    exact h x hx hname

theorem writeFile_exists (dir : Dir) (name out other : String)
    (h : ∃ e ∈ dir, e.name = other) : ∃ e ∈ writeFile dir name out, e.name = other := by
  obtain ⟨x, hx, hxn⟩ := h
  unfold writeFile
  by_cases hn : (x.name == name) = true
  · exact ⟨{ x with data := out }, List.mem_map.mpr ⟨x, hx, by rw [if_pos hn]⟩, hxn⟩
  · exact ⟨x, List.mem_map.mpr ⟨x, hx, by rw [if_neg hn]⟩, hxn⟩

theorem writeTo_forall (P : String → Bool → Prop) (env : Env) (dir : Dir) (name out : String)
    (h : ∀ e ∈ dir, P e.name e.isDir) : ∀ e ∈ writeTo env dir name out, P e.name e.isDir := by
  unfold writeTo
  cases locate env name with
  | entry n => exact writeFile_forall P dir n out h
  | below n => exact h
  | directory => exact h
  | outside => exact h

theorem createEntry_forall (P : String → Bool → Prop) {dir dir1 : Dir} {name : String}
    (h : createEntry dir name = .ok dir1) (hnew : P name false)
    (hd : ∀ e ∈ dir, P e.name e.isDir) : ∀ e ∈ dir1, P e.name e.isDir := by
  unfold createEntry at h
  split at h
  · split at h
    · cases h
    · cases h
      exact writeFile_forall P dir name "" hd
  · cases h
    intro e he
    rcases List.mem_append.mp he with h1 | h1
    · exact hd e h1
    · simp only [List.mem_singleton] at h1
      rw [h1]
      exact hnew

theorem createEntry_exists {dir dir1 : Dir} {name : String}
    (h : createEntry dir name = .ok dir1) : ∃ e ∈ dir1, e.name = name := by
  unfold createEntry at h
  split at h
  · rename_i e0 hfind
    split at h
    · cases h
    · cases h
      have hmem := List.mem_of_find?_eq_some hfind
      have hname : e0.name = name := by
        have := List.find?_some hfind
        simpa using this
      exact writeFile_exists dir name "" name ⟨e0, hmem, hname⟩
  · cases h
    exact ⟨{ name := name, isDir := false, data := "" }, by simp, rfl⟩

theorem osCreate_forall (P : String → Bool → Prop) {env : Env} {dir dir1 : Dir} {name : String}
    (h : osCreate env dir name = .ok dir1) (hnew : ∀ n, locate env name = .entry n → P n false)
    (hd : ∀ e ∈ dir, P e.name e.isDir) : ∀ e ∈ dir1, P e.name e.isDir := by
  rcases osCreate_cases h with ⟨n, hl, hc⟩ | ⟨_, hd1⟩
  · exact createEntry_forall P hc (hnew n hl) hd
  · rw [hd1]; exact hd

theorem osCreate_exists {env : Env} {dir dir1 : Dir} {name n : String}
    (h : osCreate env dir name = .ok dir1) (hl : locate env name = .entry n) :
    ∃ e ∈ dir1, e.name = n := by
  rcases osCreate_cases h with ⟨m, hm, hc⟩ | ⟨hno, _⟩
  · rw [hl] at hm
    cases hm
    exact createEntry_exists hc
  · exact absurd hl (hno n)

theorem generateFile_mem_ne (env : Env) (pt : PostTempalte) (index : Bool) (dir : Dir)
    (e : Entry) (hslug : ∀ p, pt.Post = some p → locate env p.Slug ≠ .entry e.name)
    (hidx : index = true → e.name ≠ "index.html") :
    e ∈ (generateFile env pt index dir).1 ↔ e ∈ dir := by
  unfold generateFile
  cases hp : pt.Post with
  | none => simp
  | some post =>
    have hne := hslug post hp
    simp only
    cases h1 : osCreate env dir post.Slug with
    | error err => simp
    | ok dir1 =>
      simp only
      cases index with
      | false =>
        simp only [Bool.false_eq_true, if_false]
        rw [writeTo_mem_ne _ _ _ _ _ hne]
        exact osCreate_mem_ne h1 e hne
      | true =>
        have hi : locate env "index.html" ≠ .entry e.name := by
          rw [locate_index]
          intro h
          exact hidx rfl (Target.entry.inj h).symm
        simp only [if_true]
        cases h2 : osCreate env dir1 "index.html" with
        | error err => simp only; exact osCreate_mem_ne h1 e hne
        | ok dir2 =>
          simp only
          rw [writeTo_mem_ne _ _ _ _ _ hi, writeTo_mem_ne _ _ _ _ _ hne,
            osCreate_mem_ne h2 e hi]
          exact osCreate_mem_ne h1 e hne

theorem generateFile_forall (P : String → Bool → Prop) (env : Env) (pt : PostTempalte)
    (index : Bool) (dir : Dir)
    (hslug : ∀ p n, pt.Post = some p → locate env p.Slug = .entry n → P n false)
    (hidx : index = true → P "index.html" false) (hd : ∀ e ∈ dir, P e.name e.isDir) :
    ∀ e ∈ (generateFile env pt index dir).1, P e.name e.isDir := by
  unfold generateFile
  cases hp : pt.Post with
  | none => simpa using hd
  | some post =>
    have hnew : ∀ n, locate env post.Slug = .entry n → P n false :=
      fun n hn => hslug post n hp hn
    simp only
    cases h1 : osCreate env dir post.Slug with
    | error err => simpa using hd
    | ok dir1 =>
      have hd1 := osCreate_forall P h1 hnew hd
      simp only
      cases index with
      | false =>
        simp only [Bool.false_eq_true, if_false]
        exact writeTo_forall P _ _ _ _ hd1
      | true =>
        have hi : ∀ n, locate env "index.html" = .entry n → P n false := by
          intro n hn
          rw [locate_index] at hn
          cases hn
          exact hidx rfl
        simp only [if_true]
        cases h2 : osCreate env dir1 "index.html" with
        | error err => simpa using hd1
        | ok dir2 =>
          simp only
          exact writeTo_forall P _ _ _ _
            (writeTo_forall P _ _ _ _ (osCreate_forall P h2 hi hd1))

theorem generatePages_mem_ne (env : Env) (recent all : List LongPost) (e : Entry) :
    ∀ (ps : List LongPost) (i : Nat) (dir : Dir),
      (∀ p ∈ ps, locate env p.Slug ≠ .entry e.name) →
      (i = 0 → e.name ≠ "index.html") →
      (e ∈ (generatePages env recent all i ps dir).1 ↔ e ∈ dir) := by
  intro ps
  induction ps with
  | nil => intro i dir _ _; simp [generatePages]
  | cons p ps ih =>
    intro i dir hs hi
    have hstep := generateFile_mem_ne env (newPostTempalte (some p) i recent all) (i == 0) dir e
      (by intro q hq
          simp only [newPostTempalte, Option.some.injEq] at hq
          rw [← hq]; exact hs p (List.mem_cons_self _ _))
      (by intro h0; exact hi (by simpa using h0))
    rw [generatePages]
    cases hg : generateFile env (newPostTempalte (some p) i recent all) (i == 0) dir with
    | mk dir1 st =>
      rw [hg] at hstep
      cases st with
      | ok =>
        simp only
        rw [ih (i + 1) dir1 (fun q hq => hs q (List.mem_cons_of_mem _ hq)) (by omega)]
        exact hstep
      | error msg => simpa using hstep
      | panic => simpa using hstep

theorem generatePages_forall (P : String → Bool → Prop) (env : Env)
    (recent all : List LongPost) (hidx : P "index.html" false) :
    ∀ (ps : List LongPost) (i : Nat) (dir : Dir),
      (∀ p ∈ ps, ∀ n, locate env p.Slug = .entry n → P n false) →
      (∀ e ∈ dir, P e.name e.isDir) →
      ∀ e ∈ (generatePages env recent all i ps dir).1, P e.name e.isDir := by
  intro ps
  induction ps with
  | nil => intro i dir _ hd; simpa [generatePages] using hd
  | cons p ps ih =>
    intro i dir hs hd
    have hstep := generateFile_forall P env (newPostTempalte (some p) i recent all) (i == 0) dir
      (by intro q n hq hn
          simp only [newPostTempalte, Option.some.injEq] at hq
          rw [← hq] at hn; exact hs p (List.mem_cons_self _ _) n hn)
      (fun _ => hidx) hd
    rw [generatePages]
    cases hg : generateFile env (newPostTempalte (some p) i recent all) (i == 0) dir with
    | mk dir1 st =>
      rw [hg] at hstep
      cases st with
      | ok =>
        simp only
        exact ih (i + 1) dir1 (fun q hq => hs q (List.mem_cons_of_mem _ hq)) hstep
      | error msg => simpa using hstep
      | panic => simpa using hstep

theorem rssWriteToFile_rss_mem_ne (env : Env) (rss : Rss) (dir : Dir) (e : Entry)
    (hne : e.name ≠ "rss.xml") : e ∈ (rssWriteToFile env rss "rss.xml" dir).1 ↔ e ∈ dir := by
  have hl : locate env "rss.xml" ≠ .entry e.name := by
    rw [locate_rss]
    intro h
    exact hne (Target.entry.inj h).symm
  unfold rssWriteToFile
  cases h : osCreate env dir "rss.xml" with
  | error err => simp
  | ok dir1 =>
    simp only
    rw [writeTo_mem_ne _ _ _ _ _ hl]
    exact osCreate_mem_ne h e hl

theorem generateRss_mem_ne (env : Env) (cfg : Config) (pt : PostTempalte) (dir : Dir)
    (e : Entry) (hne : e.name ≠ "rss.xml") :
    e ∈ (generateRss env cfg pt dir).1 ↔ e ∈ dir := by
  unfold generateRss
  cases env.url.Parse cfg.BaseURL with
  | error err => simp
  | ok base =>
    simp only
    cases rssLoop env base pt.Recent (NewRss cfg.SiteName cfg.Slogan cfg.BaseURL) with
    | error st => simp
    | ok rss => exact rssWriteToFile_rss_mem_ne env rss dir e hne

theorem generateRss_forall (P : String → Bool → Prop) (env : Env) (cfg : Config)
    (pt : PostTempalte) (dir : Dir) (hnew : P "rss.xml" false)
    (hd : ∀ e ∈ dir, P e.name e.isDir) :
    ∀ e ∈ (generateRss env cfg pt dir).1, P e.name e.isDir := by
  have hl : ∀ n, locate env "rss.xml" = .entry n → P n false := by
    intro n hn
    rw [locate_rss] at hn
    cases hn
    exact hnew
  unfold generateRss
  cases env.url.Parse cfg.BaseURL with
  | error err => simpa using hd
  | ok base =>
    simp only
    cases rssLoop env base pt.Recent (NewRss cfg.SiteName cfg.Slogan cfg.BaseURL) with
    | error st => simpa using hd
    | ok rss =>
      simp only
      unfold rssWriteToFile
      cases h : osCreate env dir "rss.xml" with
      | error err => simpa using hd
      | ok dir1 =>
        simp only
        exact writeTo_forall P _ _ _ _ (osCreate_forall P h hl hd)

theorem rssLoop_ok (env : Env) (base : env.url.URL) (title description link : String) :
    ∀ (ps : List LongPost) (items : List RssItem),
      (∀ p ∈ ps, ∃ u, env.url.ParseRef base p.Slug = .ok u) →
      ∃ added : List RssItem,
        rssLoop env base ps
          { Channels := [{ Title := title, Description := description, Link := link,
                           Items := items }] }
          = .ok { Channels := [{ Title := title, Description := description, Link := link,
                                 Items := items ++ added }] } ∧
        List.Forall₂
          (fun p item => ∃ u, env.url.ParseRef base p.Slug = .ok u ∧ item = itemOf env p u)
          ps added := by
  intro ps
  induction ps with
  | nil =>
    intro items _
    exact ⟨[], by simp [rssLoop], List.Forall₂.nil⟩
  | cons p ps ih =>
    intro items h
    obtain ⟨u, hu⟩ := h p (List.mem_cons_self _ _)
    obtain ⟨added, hrun, hrel⟩ := ih (items ++ [itemOf env p u])
      (fun q hq => h q (List.mem_cons_of_mem _ hq))
    refine ⟨itemOf env p u :: added, ?_, List.Forall₂.cons ⟨u, hu, rfl⟩ hrel⟩
    rw [rssLoop, hu]
    simp only [appendToFirstChannel, RssChannel.AppendItem]
    rw [show items ++ itemOf env p u :: added = items ++ [itemOf env p u] ++ added by simp]
    exact hrun

theorem rssLoop_error (env : Env) (base : env.url.URL) (title description link : String)
    (p : LongPost) (post : List LongPost) (err : String)
    (hp : env.url.ParseRef base p.Slug = .error err) :
    ∀ (pre : List LongPost) (items : List RssItem),
      (∀ q ∈ pre, ∃ u, env.url.ParseRef base q.Slug = .ok u) →
      rssLoop env base (pre ++ p :: post)
        { Channels := [{ Title := title, Description := description, Link := link,
                         Items := items }] }
        = .error (.error ("Error parsing post URL: " ++ err)) := by
  intro pre
  induction pre with
  | nil =>
    intro items _
    rw [List.nil_append, rssLoop, hp]
  | cons q pre ih =>
    intro items h
    obtain ⟨u, hu⟩ := h q (List.mem_cons_self _ _)
    rw [List.cons_append, rssLoop, hu]
    simp only [appendToFirstChannel, RssChannel.AppendItem]
    exact ih _ (fun r hr => h r (List.mem_cons_of_mem _ hr))

theorem getPosts_some {env : Env} {cfg : Config} {files : List FileInfo}
    {all recent : List LongPost} (h : getPosts env cfg files = some (all, recent)) :
    all = env.sortSort (reverseLess posts.Less) (loadPosts env files) ∧
      recent = all.take (recentCount cfg all.length).toNat ∧
      0 ≤ recentCount cfg all.length := by
  unfold getPosts at h
  simp only at h
  split at h
  · rename_i hc
    simp only [Option.some.injEq, Prod.mk.injEq] at h
    obtain ⟨h1, h2⟩ := h
    subst h1
    exact ⟨rfl, h2.symm, hc.1⟩
  · cases h

theorem map_injOn_eq {α β : Type} (f : α → β) : ∀ (l1 l2 : List α),
    l1.map f = l2.map f → (∀ a ∈ l1, ∀ b ∈ l2, f a = f b → a = b) → l1 = l2 := by
  intro l1
  induction l1 with
  | nil =>
    intro l2 h _
    cases l2 with
    | nil => rfl
    | cons b l2 => simp at h
  | cons a l1 ih =>
    intro l2 h hinj
    cases l2 with
    | nil => simp at h
    | cons b l2 =>
      simp only [List.map_cons, List.cons.injEq] at h
      have hab := hinj a (List.mem_cons_self _ _) b (List.mem_cons_self _ _) h.1
      rw [hab, ih l2 h.2 (fun x hx y hy => hinj x (List.mem_cons_of_mem _ hx) y
        (List.mem_cons_of_mem _ hy))]

theorem sorted_unique (l1 l2 : List LongPost) (hperm : l1.Perm l2)
    (hnodup : (l1.map (fun p => p.PublishDate)).Nodup)
    (h1 : l1.Pairwise
      (fun a b => a.PublishDate ≤ b.PublishDate → a.PublishDate = b.PublishDate))
    (h2 : l2.Pairwise
      (fun a b => a.PublishDate ≤ b.PublishDate → a.PublishDate = b.PublishDate)) :
    l1 = l2 := by
  have hge : ∀ l : List LongPost,
      l.Pairwise (fun a b => a.PublishDate ≤ b.PublishDate → a.PublishDate = b.PublishDate) →
      (l.map (fun p => p.PublishDate)).Sorted (fun x y => y ≤ x) := by
    intro l hl
    unfold List.Sorted
    rw [List.pairwise_map]
    exact hl.imp (fun {a b} h => by omega)
  have hmap : l1.map (fun p => p.PublishDate) = l2.map (fun p => p.PublishDate) := by
    have : IsAntisymm Int (fun x y => y ≤ x) := ⟨fun a b h1 h2 => le_antisymm h2 h1⟩
    exact List.eq_of_perm_of_sorted (hperm.map _) (hge l1 h1) (hge l2 h2)
  refine map_injOn_eq (fun p => p.PublishDate) l1 l2 hmap ?_
  intro a ha b hb hab
  exact List.inj_on_of_nodup_map hnodup ha (hperm.mem_iff.mpr hb) hab

theorem clearPublishDir_ok_eq (env : Env) (dir dir1 : Dir)
    (hn : (dir.map (fun e => e.name)).Nodup) (h : clearPublishDir env dir = (dir1, none)) :
    dir1 = dir.filter (fun e => !removable e) := by
  unfold clearPublishDir at h
  cases hr : env.readPublicErr with
  | some err => rw [hr] at h; simp at h
  | none =>
    rw [hr] at h
    simp only at h
    rw [clearLoop_ok env dir dir dir1 h]
    apply List.filter_congr
    intro e he
    cases hre : removable e with
    | true =>
      have : dir.any (fun f => removable f && f.name == e.name) = true :=
        List.any_eq_true.mpr ⟨e, he, by simp [hre]⟩
      simp [this]
    | false =>
      have : dir.any (fun f => removable f && f.name == e.name) = false := by
        rw [Bool.eq_false_iff]
        intro hany
        obtain ⟨f, hf, hcond⟩ := List.any_eq_true.mp hany
        simp only [Bool.and_eq_true, beq_iff_eq] at hcond
        have hfe : f = e := List.inj_on_of_nodup_map hn hf he hcond.2
        rw [hfe, hre] at hcond
        exact absurd hcond.1 (by simp)
      simp [this]

theorem generatePages_cons_ok {env : Env} {recent all : List LongPost} {i : Nat}
    {p : LongPost} {ps : List LongPost} {dir dir2 : Dir}
    (h : generatePages env recent all i (p :: ps) dir = (dir2, .ok)) :
    ∃ dir1, generateFile env (newPostTempalte (some p) i recent all) (i == 0) dir = (dir1, .ok) ∧
      generatePages env recent all (i + 1) ps dir1 = (dir2, .ok) := by
  rw [generatePages] at h
  cases hg : generateFile env (newPostTempalte (some p) i recent all) (i == 0) dir with
  | mk dir1 st =>
    rw [hg] at h
    cases st with
    | ok => exact ⟨dir1, rfl, h⟩
    | error msg => simp at h
    | panic => simp at h

theorem writeTo_rss (env : Env) (dir : Dir) (out : String) :
    writeTo env dir "rss.xml" out = writeFile dir "rss.xml" out := by
  unfold writeTo
  rw [locate_rss]

theorem writeTo_index (env : Env) (dir : Dir) (out : String) :
    writeTo env dir "index.html" out = writeFile dir "index.html" out := by
  unfold writeTo
  rw [locate_index]

theorem generateFile_index_ok {env : Env} {pt : PostTempalte} {post : LongPost}
    {dir dir1 : Dir} (hp : pt.Post = some post)
    (h : generateFile env pt true dir = (dir1, .ok)) :
    (∃ e ∈ dir1, e.name = "index.html") ∧
    (∀ e ∈ dir1, e.name = "index.html" → e.data = (env.render pt).1) ∧
    (∀ n, locate env post.Slug = .entry n →
      (∃ e ∈ dir1, e.name = n) ∧ ∀ e ∈ dir1, e.name = n → e.data = (env.render pt).1) := by
  unfold generateFile at h
  rw [hp] at h
  simp only at h
  cases h1 : osCreate env dir post.Slug with
  | error err => rw [h1] at h; simp at h
  | ok d1 =>
    rw [h1] at h
    simp only [if_true] at h
    cases h2 : osCreate env d1 "index.html" with
    | error err => rw [h2] at h; simp at h
    | ok d2 =>
      rw [h2] at h
      simp only [Prod.mk.injEq] at h
      obtain ⟨hd, _⟩ := h
      subst hd
      rw [writeTo_index]
      refine ⟨?_, ?_, ?_⟩
      · apply writeFile_exists
        obtain ⟨e, he, hn⟩ := osCreate_exists h2 (locate_index env)
        by_cases hloc : locate env post.Slug = .entry e.name
        · unfold writeTo
          rw [hloc]
          exact writeFile_exists _ _ _ _ ⟨e, he, hn⟩
        · exact ⟨e, (writeTo_mem_ne env d2 post.Slug _ e hloc).mpr he, hn⟩
      · exact writeFile_data _ _ _
      · intro n hn
        have hw : writeTo env d2 post.Slug (env.render pt).1
            = writeFile d2 n (env.render pt).1 := by
          unfold writeTo
          rw [hn]
        rw [hw]
        constructor
        · have h3 : ∃ e ∈ d2, e.name = n := by
            obtain ⟨e, he, hname⟩ := osCreate_exists h1 hn
            by_cases hidx : n = "index.html"
            · rw [hidx]; exact osCreate_exists h2 (locate_index env)
            · refine ⟨e, (osCreate_mem_ne h2 e ?_).mpr he, hname⟩
              rw [locate_index, hname]
              intro hh
              cases hh
              exact hidx rfl
          exact writeFile_exists _ _ _ _ (writeFile_exists _ _ _ _ h3)
        · exact writeFile_data_keep _ _ _ _ (writeFile_data _ _ _)

theorem GenerateSite_ok_run {env : Env} {cfg : Config} {pub final : Dir}
    (h : GenerateSite env cfg pub = (final, .ok)) :
    ∃ files all recent cleared pages,
      env.readPostsDir = .ok files ∧
      getPosts env cfg (filter files) = some (all, recent) ∧
      clearPublishDir env pub = (cleared, none) ∧
      generatePages env recent all 0 all cleared = (pages, .ok) ∧
      generateRss env cfg (newPostTempalte none 0 recent all) pages = (final, .ok) := by
  unfold GenerateSite at h
  cases h1 : storeRssURL env cfg with
  | none => rw [h1] at h; simp at h
  | some url =>
    rw [h1] at h
    simp only at h
    cases h2 : env.templatesOk with
    | false => rw [h2] at h; simp at h
    | true =>
      rw [h2] at h
      simp only [Bool.not_true, Bool.false_eq_true, if_false] at h
      cases h3 : env.readPostsDir with
      | error err => rw [h3] at h; simp at h
      | ok files =>
        rw [h3] at h
        simp only at h
        cases h4 : getPosts env cfg (filter files) with
        | none => rw [h4] at h; simp at h
        | some pr =>
          obtain ⟨all, recent⟩ := pr
          rw [h4] at h
          simp only at h
          cases h5 : clearPublishDir env pub with
          | mk cleared err =>
            rw [h5] at h
            cases err with
            | some msg => simp at h
            | none =>
              simp only at h
              cases h6 : generatePages env recent all 0 all cleared with
              | mk pages st =>
                rw [h6] at h
                cases st with
                | ok => exact ⟨files, all, recent, cleared, pages, rfl, h4, rfl, h6, h⟩
                | error msg => simp at h
                | panic => simp at h

theorem keptName_iff (name : String) :
    keptName name = true ↔ HasPrefix name "." = true ∨ name ∈ specFiles := by
  unfold keptName
  simp

theorem GenerateSite_mem_kept (env : Env) (cfg : Config) (pub : Dir) (e : Entry)
    (hk : keptName e.name = true)
    (hslug : ∀ files all recent, env.readPostsDir = .ok files →
      getPosts env cfg (filter files) = some (all, recent) →
      ∀ p ∈ all, locate env p.Slug ≠ .entry e.name) :
    e ∈ (GenerateSite env cfg pub).1 ↔ e ∈ pub := by
  have hidx : e.name ≠ "index.html" := by
    intro h; rw [h] at hk; exact absurd hk (by decide)
  have hrss : e.name ≠ "rss.xml" := by
    intro h; rw [h] at hk; exact absurd hk (by decide)
  unfold GenerateSite
  cases storeRssURL env cfg with
  | none => simp
  | some url =>
    simp only
    cases env.templatesOk with
    | false => simp
    | true =>
      simp only [Bool.not_true, Bool.false_eq_true, if_false]
      cases h3 : env.readPostsDir with
      | error err => simp
      | ok files =>
        simp only
        cases h4 : getPosts env cfg (filter files) with
        | none => simp
        | some pr =>
          obtain ⟨all, recent⟩ := pr
          simp only
          have hclear := clearPublishDir_mem_kept env e hk pub
          cases h5 : clearPublishDir env pub with
          | mk cleared err =>
            rw [h5] at hclear
            cases err with
            | some msg => simpa using hclear
            | none =>
              simp only
              have hpages := generatePages_mem_ne env recent all e all 0 cleared
                (hslug files all recent h3 h4) (fun _ => hidx)
              cases h6 : generatePages env recent all 0 all cleared with
              | mk pages st =>
                rw [h6] at hpages
                cases st with
                | ok =>
                  simp only
                  rw [generateRss_mem_ne env cfg _ pages e hrss]
                  exact hpages.trans hclear
                | error msg => simpa using hpages.trans hclear
                | panic => simpa using hpages.trans hclear

theorem slugCount_eq_count (ps : List LongPost) (name : String) :
    slugCount ps name = (ps.map (fun p => p.Slug)).count name := by
  unfold slugCount
  induction ps with
  | nil => rfl
  | cons p ps ih =>
    by_cases h : p.Slug = name
    · have hb : (p.Slug == name) = true := by simpa using h
      rw [List.filter_cons, if_pos hb, List.map_cons, List.length_cons, ih, h,
        List.count_cons_self]
    · have hb : ¬ (p.Slug == name) = true := by simpa using h
      rw [List.filter_cons, if_neg hb, List.map_cons, ih, List.count_cons_of_ne (Ne.symm h)]

theorem pairwise_of_forall₂ {α β : Type} {R : α → β → Prop} {P : α → α → Prop}
    {Q : β → β → Prop} (h : ∀ a b x y, R a x → R b y → P a b → Q x y) :
    ∀ {l1 : List α} {l2 : List β}, List.Forall₂ R l1 l2 → l1.Pairwise P → l2.Pairwise Q := by
  intro l1 l2 hrel
  induction hrel with
  | nil => intro _; exact List.Pairwise.nil
  | cons hax hrest ih =>
    rename_i a x l1 l2
    intro hp
    rw [List.pairwise_cons] at hp ⊢
    refine ⟨?_, ih hp.2⟩
    intro y hy
    obtain ⟨i, hi, hyi⟩ := List.getElem_of_mem hy
    have hlen := hrest.length_eq
    have hR : R (l1.get ⟨i, by omega⟩) (l2.get ⟨i, hi⟩) :=
      (List.forall₂_iff_get.mp hrest).2 i (by omega) hi
    rw [← hyi]
    exact h _ _ _ _ hax hR (hp.1 _ (List.get_mem _ _ _))

/-! ## The claims -/

/-- C1: for every list of directory entries, `filter` returns a permutation of exactly the
entries that are not directories and whose name has extension `.md`: every entry of the
result qualifies, every qualifying entry occurs as often as in the input, and the extension
is `.md` exactly when the name ends in `.md`, case-sensitively (so `a.MD` and `a.md.bak`
are dropped). -/
theorem filter_keeps_exactly_markdown_files (file : List FileInfo) :
    (filter file).Perm (file.filter (fun f => !f.isDir && Ext f.name == ".md")) ∧
    (∀ f ∈ filter file, f.isDir = false ∧ Ext f.name = ".md") ∧
    (∀ f, f.isDir = false → Ext f.name = ".md" → (filter file).count f = file.count f) ∧
    (∀ name : String, Ext name = ".md" ↔ ∃ s : List Char, name.data = s ++ ['.', 'm', 'd']) ∧
    Ext "a.MD" ≠ ".md" ∧ Ext "a.md.bak" ≠ ".md" := by
  have h := filterLoop_perm file.length file 0 (by omega)
  simp only [List.take_zero, List.nil_append, List.drop_zero] at h
  have hf : (fun f : FileInfo => !dropped f) = (fun f => !f.isDir && Ext f.name == ".md") := by
    funext f
    cases h1 : f.isDir <;> cases h2 : (Ext f.name == ".md") <;> simp [dropped, bne, h1, h2]
  rw [hf] at h
  have hperm : (filter file).Perm (file.filter (fun f => !f.isDir && Ext f.name == ".md")) := h
  refine ⟨hperm, ?_, ?_, Ext_eq_md_iff, by decide, by decide⟩
  · intro f hfm
    have := (List.mem_filter.mp (hperm.mem_iff.mp hfm)).2
    simpa using this
  · intro f h1 h2
    rw [hperm.count_eq, List.count_filter]
    simp [h1, h2]

/-- C2: in the `allPosts` sequence returned by `getPosts`, and in `recentPosts`, a post
whose PublishDate is strictly after that of another post stands at a smaller index (for
every list of candidate files, every `sort.Sort` that meets its contract, and a
RecentPostsCount that is not negative, as the data model has it). -/
theorem getPosts_newest_first (env : Env) (cfg : Config) (files : List FileInfo)
    (hs : SortContract env.sortSort) (hc : 0 ≤ cfg.RecentPostsCount) :
    ∃ all recent, getPosts env cfg files = some (all, recent) ∧
      (∀ (i j : Nat) (hi : i < all.length) (hj : j < all.length),
        all[j].PublishDate < all[i].PublishDate → i < j) ∧
      (∀ (i j : Nat) (hi : i < recent.length) (hj : j < recent.length),
        recent[j].PublishDate < recent[i].PublishDate → i < j) := by
  refine ⟨_, _, getPosts_eq env cfg files hs hc, ?_, ?_⟩
  · intro i j hi hj hlt
    exact index_lt_of_pairwise (sorted_newest_first env hs _) i j hi hj hlt
  · intro i j hi hj hlt
    exact index_lt_of_pairwise
      ((sorted_newest_first env hs _).sublist (List.take_sublist _ _)) i j hi hj hlt

/-- C3: for a RecentPostsCount that is not negative, `recentPosts` is the prefix of
`allPosts` of length `min(RecentPostsCount, len(allPosts))`; when RecentPostsCount exceeds
the number of loaded posts both have the same length; and the bound of the slice expression
`allPosts[:recent]` lies between 0 and `len(allPosts)`. -/
theorem getPosts_recent_is_clamped_prefix (env : Env) (cfg : Config) (files : List FileInfo)
    (hs : SortContract env.sortSort) (hc : 0 ≤ cfg.RecentPostsCount) :
    ∃ all recent, getPosts env cfg files = some (all, recent) ∧
      recent = all.take (min cfg.RecentPostsCount.toNat all.length) ∧
      recent.length = min cfg.RecentPostsCount.toNat all.length ∧
      ((all.length : Int) < cfg.RecentPostsCount → recent.length = all.length) ∧
      0 ≤ recentCount cfg all.length ∧ recentCount cfg all.length ≤ (all.length : Int) := by
  refine ⟨_, _, getPosts_eq env cfg files hs hc, rfl, ?_, ?_, ?_, ?_⟩
  · simp
  · intro h
    rw [List.length_take]
    omega
  · unfold recentCount; split <;> omega
  · unfold recentCount; split <;> omega

/-- C7: `getPosts` returns for every list of candidate files (RecentPostsCount not negative):
a file on which `newLongPost` fails is skipped, and `allPosts` is a permutation of the posts
of the files on which it succeeds, each exactly once; `recentPosts` is a prefix of
`allPosts`, so it holds no other post. -/
theorem getPosts_skips_failed_files (env : Env) (cfg : Config) (files : List FileInfo)
    (hs : SortContract env.sortSort) (hc : 0 ≤ cfg.RecentPostsCount) :
    ∃ all recent, getPosts env cfg files = some (all, recent) ∧
      all.Perm (files.filterMap (fun f => (env.newLongPost f).toOption)) ∧
      recent <+: all ∧
      (∀ p, p ∈ all ↔ ∃ f ∈ files, env.newLongPost f = .ok p) := by
  have hperm : (env.sortSort (reverseLess posts.Less) (loadPosts env files)).Perm
      (files.filterMap (fun f => (env.newLongPost f).toOption)) := by
    have := hs.1 (reverseLess posts.Less) (loadPosts env files)
    exact this.trans (by rw [loadPosts_eq])
  refine ⟨_, _, getPosts_eq env cfg files hs hc, hperm, List.take_prefix _ _, ?_⟩
  intro p
  rw [hperm.mem_iff, List.mem_filterMap]
  constructor
  · rintro ⟨f, hf, hp⟩
    refine ⟨f, hf, ?_⟩
    cases h : env.newLongPost f with
    | error e => rw [h] at hp; simp [Except.toOption] at hp
    | ok q =>
      rw [h] at hp
      simp only [Except.toOption, Option.some.injEq] at hp
      rw [hp]
  · rintro ⟨f, hf, hp⟩
    exact ⟨f, hf, by rw [hp]; rfl⟩

/-- C8 (amended): `posts.Less` compares PublishDate only, so ties are not broken; when the
loaded posts have pairwise distinct PublishDates, `getPosts` returns the same `allPosts`
and `recentPosts` for every order in which the candidate files are supplied. -/
theorem getPosts_order_independent_of_distinct_dates (env : Env) (cfg : Config)
    (files1 files2 : List FileInfo) (hs : SortContract env.sortSort)
    (hperm : files1.Perm files2)
    (hd : ((loadPosts env files1).map (fun p => p.PublishDate)).Nodup) :
    getPosts env cfg files1 = getPosts env cfg files2 := by
  have hload : (loadPosts env files1).Perm (loadPosts env files2) := by
    rw [loadPosts_eq, loadPosts_eq]
    exact hperm.filterMap _
  have hsorted : env.sortSort (reverseLess posts.Less) (loadPosts env files1)
      = env.sortSort (reverseLess posts.Less) (loadPosts env files2) := by
    apply sorted_unique
    · exact ((hs.1 _ _).trans hload).trans (hs.1 _ _).symm
    · exact (((hs.1 _ (loadPosts env files1)).map _).nodup_iff).mpr hd
    · exact sorted_newest_first env hs _
    · exact sorted_newest_first env hs _
  unfold getPosts
  simp only [hsorted, hperm.length_eq]

/-- Witness of C2 on the example directory. -/
theorem getPosts_newest_first_witness :
    SortContract (exampleEnv exampleFiles exampleTable).sortSort ∧
    0 ≤ exampleCfg.RecentPostsCount ∧
    ∃ all recent,
      getPosts (exampleEnv exampleFiles exampleTable) exampleCfg (filter exampleFiles)
        = some (all, recent) ∧
      (∀ (i j : Nat) (hi : i < all.length) (hj : j < all.length),
        all[j].PublishDate < all[i].PublishDate → i < j) ∧
      (∀ (i j : Nat) (hi : i < recent.length) (hj : j < recent.length),
        recent[j].PublishDate < recent[i].PublishDate → i < j) :=
  ⟨insertionSort_contract, by decide,
    getPosts_newest_first (exampleEnv exampleFiles exampleTable) exampleCfg (filter exampleFiles)
      insertionSort_contract (by decide)⟩

/-- Witness of C3 on the example directory, with RecentPostsCount = 2 and three posts. -/
theorem getPosts_recent_is_clamped_prefix_witness :
    SortContract (exampleEnv exampleFiles exampleTable).sortSort ∧
    0 ≤ exampleCfg.RecentPostsCount ∧
    ∃ all recent,
      getPosts (exampleEnv exampleFiles exampleTable) exampleCfg (filter exampleFiles)
        = some (all, recent) ∧
      recent = all.take (min exampleCfg.RecentPostsCount.toNat all.length) ∧
      recent.length = min exampleCfg.RecentPostsCount.toNat all.length ∧
      ((all.length : Int) < exampleCfg.RecentPostsCount → recent.length = all.length) ∧
      0 ≤ recentCount exampleCfg all.length ∧
      recentCount exampleCfg all.length ≤ (all.length : Int) :=
  ⟨insertionSort_contract, by decide,
    getPosts_recent_is_clamped_prefix (exampleEnv exampleFiles exampleTable) exampleCfg
      (filter exampleFiles) insertionSort_contract (by decide)⟩

/-- Witness of C7 on the example directory, where `broken.md` does not load. -/
theorem getPosts_skips_failed_files_witness :
    SortContract (exampleEnv exampleFiles exampleTable).sortSort ∧
    0 ≤ exampleCfg.RecentPostsCount ∧
    (exampleEnv exampleFiles exampleTable).newLongPost ⟨"broken.md", false⟩
      = .error "unparsable date" ∧
    ∃ all recent,
      getPosts (exampleEnv exampleFiles exampleTable) exampleCfg (filter exampleFiles)
        = some (all, recent) ∧
      all.Perm ((filter exampleFiles).filterMap
        (fun f => ((exampleEnv exampleFiles exampleTable).newLongPost f).toOption)) ∧
      recent <+: all ∧
      (∀ p, p ∈ all ↔ ∃ f ∈ filter exampleFiles,
        (exampleEnv exampleFiles exampleTable).newLongPost f = .ok p) :=
  ⟨insertionSort_contract, by decide, rfl,
    getPosts_skips_failed_files (exampleEnv exampleFiles exampleTable) exampleCfg
      (filter exampleFiles) insertionSort_contract (by decide)⟩

/-- Counterexample to C8: two posts with distinct Slugs and equal PublishDate come out of
`getPosts` in the order of the candidate files, so the two orders of the same two files
give different `allPosts`. -/
theorem getPosts_tie_follows_file_order :
    (examplePost "a" 5).Slug ≠ (examplePost "b" 5).Slug ∧
    (examplePost "a" 5).PublishDate = (examplePost "b" 5).PublishDate ∧
    getPosts (exampleEnv [] tieTable) exampleCfg [⟨"a.md", false⟩, ⟨"b.md", false⟩]
      = some ([examplePost "a" 5, examplePost "b" 5], [examplePost "a" 5, examplePost "b" 5]) ∧
    getPosts (exampleEnv [] tieTable) exampleCfg [⟨"b.md", false⟩, ⟨"a.md", false⟩]
      = some ([examplePost "b" 5, examplePost "a" 5], [examplePost "b" 5, examplePost "a" 5]) ∧
    getPosts (exampleEnv [] tieTable) exampleCfg [⟨"a.md", false⟩, ⟨"b.md", false⟩]
      ≠ getPosts (exampleEnv [] tieTable) exampleCfg [⟨"b.md", false⟩, ⟨"a.md", false⟩] := by
  decide

/-- Witness of the amended C8: the example files in two different orders. -/
theorem getPosts_order_independent_of_distinct_dates_witness :
    SortContract (exampleEnv exampleFiles exampleTable).sortSort ∧
    (filter exampleFiles).Perm (filter exampleFiles).reverse ∧
    ((loadPosts (exampleEnv exampleFiles exampleTable) (filter exampleFiles)).map
      (fun p => p.PublishDate)).Nodup ∧
    getPosts (exampleEnv exampleFiles exampleTable) exampleCfg (filter exampleFiles)
      = getPosts (exampleEnv exampleFiles exampleTable) exampleCfg (filter exampleFiles).reverse :=
  ⟨insertionSort_contract, (List.reverse_perm _).symm, by decide,
    getPosts_order_independent_of_distinct_dates (exampleEnv exampleFiles exampleTable)
      exampleCfg (filter exampleFiles) (filter exampleFiles).reverse insertionSort_contract
      (List.reverse_perm _).symm (by decide)⟩

/-- C4: when `clearPublishDir` succeeds on an output directory (whose entries have distinct
names), the directory afterwards holds exactly the entries present before that are a
directory, have a name starting with a dot, or are named favicon.ico, robots.txt,
humans.txt or apple-touch-icon.png, each with its content unchanged; no entry with the name
of any other previously existing file remains. -/
theorem clearPublishDir_keeps_exactly_protected (env : Env) (dir dir1 : Dir)
    (hn : (dir.map (fun e => e.name)).Nodup) (h : clearPublishDir env dir = (dir1, none)) :
    dir1 = dir.filter
      (fun e => e.isDir || HasPrefix e.name "." || specFiles.contains e.name) ∧
    (∀ e, e ∈ dir1 ↔ e ∈ dir ∧
      (e.isDir = true ∨ HasPrefix e.name "." = true ∨ e.name = "favicon.ico" ∨
        e.name = "robots.txt" ∨ e.name = "humans.txt" ∨ e.name = "apple-touch-icon.png")) ∧
    (∀ e ∈ dir, e.isDir = false → HasPrefix e.name "." = false → e.name ∉ specFiles →
      ∀ e1 ∈ dir1, e1.name ≠ e.name) := by
  have heq := clearPublishDir_ok_eq env dir dir1 hn h
  have hfun : (fun e : Entry => !removable e)
      = (fun e => e.isDir || HasPrefix e.name "." || specFiles.contains e.name) := by
    funext e
    unfold removable
    cases e.isDir <;> cases HasPrefix e.name "." <;> cases specFiles.contains e.name <;> rfl
  rw [hfun] at heq
  refine ⟨heq, ?_, ?_⟩
  · intro e
    rw [heq, List.mem_filter]
    simp [specFiles, or_assoc]
  · intro e he h1 h2 h3 e1 he1 hname
    rw [heq, List.mem_filter] at he1
    have hee : e1 = e := List.inj_on_of_nodup_map hn he1.1 he hname
    rw [hee] at he1
    have h3b : specFiles.contains e.name = false := by
      simpa using h3
    rw [h1, h2, h3b] at he1
    exact absurd he1.2 (by simp)

/-- Witness of C4 on the example output directory. -/
theorem clearPublishDir_keeps_exactly_protected_witness :
    (examplePublic.map (fun e => e.name)).Nodup ∧
    clearPublishDir (exampleEnv exampleFiles exampleTable) examplePublic
      = ([⟨".htaccess", false, "deny"⟩, ⟨"css", true, ""⟩, ⟨"favicon.ico", false, "ICON"⟩],
          none) ∧
    ([⟨".htaccess", false, "deny"⟩, ⟨"css", true, ""⟩, ⟨"favicon.ico", false, "ICON"⟩] : Dir)
      = examplePublic.filter
        (fun e => e.isDir || HasPrefix e.name "." || specFiles.contains e.name) :=
  ⟨by decide, by decide,
    (clearPublishDir_keeps_exactly_protected (exampleEnv exampleFiles exampleTable)
      examplePublic _ (by decide) (by decide)).1⟩

/-- Counterexample to C5: BaseURL parses, but the Slug of the one post of the recent subset
does not resolve against it (a leading colon: missing protocol scheme); `generateRss`
returns an error, appends no item and writes no `rss.xml`. -/
theorem generateRss_stops_at_unresolvable_slug :
    exampleUrl.Parse exampleCfg.BaseURL = .ok "http://example.com/" ∧
    generateRss (exampleEnv exampleFiles exampleTable) exampleCfg
        (newPostTempalte none 0 [examplePost ":draft" 1] [examplePost ":draft" 1]) []
      = ([], .error "Error parsing post URL: parse \":draft\": missing protocol scheme") :=
  ⟨rfl, by decide⟩

/-- C5 (amended): for every recent subset and every BaseURL that parses: if the Slug of every
post of the subset resolves against BaseURL, `generateRss` hands to `WriteToFile`, for
`rss.xml`, the one-channel feed whose items are, in the order of the subset, one item per
post with the post's Title, Description, Author and PublishDate, an empty category and the
resolved link; when the subset comes from `getPosts` the number of items is
`min(RecentPostsCount, len(allPosts))` and the items are newest first, and when `generateRss`
succeeds `rss.xml` holds the serialisation of that feed. If instead some Slug does not
resolve, `generateRss` returns the error of the first such Slug and leaves the output
directory as it was, so no `rss.xml` is written. -/
theorem generateRss_one_item_per_recent_post (env : Env) (cfg : Config) (pt : PostTempalte)
    (dir : Dir) (base : env.url.URL) (hb : env.url.Parse cfg.BaseURL = .ok base) :
    ((∀ p ∈ pt.Recent, ∃ u, env.url.ParseRef base p.Slug = .ok u) →
      ∃ items : List RssItem,
        generateRss env cfg pt dir = rssWriteToFile env (feedOf cfg items) "rss.xml" dir ∧
        List.Forall₂
          (fun p item => ∃ u, env.url.ParseRef base p.Slug = .ok u ∧
            item = NewRssItem p.Title p.Description (env.url.toStr u) p.Author "" p.PublishDate)
          pt.Recent items ∧
        items.length = pt.Recent.length ∧
        (∀ files all, getPosts env cfg files = some (all, pt.Recent) →
          items.length = min cfg.RecentPostsCount.toNat all.length ∧
          (SortContract env.sortSort → items.Pairwise (fun a b => b.PubDate ≤ a.PubDate))) ∧
        ((generateRss env cfg pt dir).2 = .ok →
          (∃ e ∈ (generateRss env cfg pt dir).1, e.name = "rss.xml") ∧
          ∀ e ∈ (generateRss env cfg pt dir).1, e.name = "rss.xml" →
            e.data = env.serialize (feedOf cfg items))) ∧
    (∀ (pre : List LongPost) (p : LongPost) (post : List LongPost) (err : String),
      pt.Recent = pre ++ p :: post →
      (∀ q ∈ pre, ∃ u, env.url.ParseRef base q.Slug = .ok u) →
      env.url.ParseRef base p.Slug = .error err →
      generateRss env cfg pt dir = (dir, .error ("Error parsing post URL: " ++ err))) := by
  constructor
  · intro hl
    obtain ⟨items, hrun, hrel⟩ := rssLoop_ok env base cfg.SiteName cfg.Slogan cfg.BaseURL
      pt.Recent [] hl
    simp only [List.nil_append] at hrun
    have hgen : generateRss env cfg pt dir
        = rssWriteToFile env (feedOf cfg items) "rss.xml" dir := by
      unfold generateRss
      rw [hb]
      simp only
      unfold NewRss
      rw [hrun]
      rfl
    have hlen : items.length = pt.Recent.length := hrel.length_eq.symm
    refine ⟨items, hgen, hrel, hlen, ?_, ?_⟩
    · intro files all hget
      obtain ⟨_, hrec, hnn⟩ := getPosts_some hget
      rw [hlen]
      have h1 : pt.Recent.length = min (recentCount cfg all.length).toNat all.length := by
        conv_lhs => rw [hrec]
        exact List.length_take _ _
      refine ⟨?_, ?_⟩
      · rw [h1]
        unfold recentCount at hnn ⊢
        split at hnn
        · rename_i hcmp
          simp only [hcmp, if_true]
          omega
        · rename_i hcmp
          simp only [hcmp, if_false]
      · intro hs
        have hsorted : pt.Recent.Pairwise
            (fun a b => a.PublishDate ≤ b.PublishDate → a.PublishDate = b.PublishDate) := by
          rw [hrec, (getPosts_some hget).1]
          exact (sorted_newest_first env hs _).sublist (List.take_sublist _ _)
        refine pairwise_of_forall₂ ?_ hrel hsorted
        rintro a b x y ⟨u, _, hx⟩ ⟨v, _, hy⟩ hab
        rw [hx, hy]
        simp only [itemOf, NewRssItem]
        omega
    · rw [hgen]
      unfold rssWriteToFile
      cases hc : osCreate env dir "rss.xml" with
      | error err => simp
      | ok dir1 =>
        simp only
        intro _
        rw [writeTo_rss]
        exact ⟨writeFile_exists _ _ _ _ (osCreate_exists hc (locate_rss env)),
          writeFile_data _ _ _⟩
  · intro pre p post err hsplit hpre hp
    unfold generateRss
    rw [hb]
    simp only
    unfold NewRss
    rw [hsplit, rssLoop_error env base cfg.SiteName cfg.Slogan cfg.BaseURL p post err hp pre []
      hpre]

/-- Witness of the amended C5: the scenario of three posts dated 1 < 2 < 3 with
RecentPostsCount = 2, whose feed has the two items of post 3 and post 2, in that order; and
the same subset followed by a post whose Slug does not resolve, for which nothing is
written. -/
theorem generateRss_one_item_per_recent_post_witness :
    exampleUrl.Parse exampleCfg.BaseURL = .ok "http://example.com/" ∧
    getPosts (exampleEnv exampleFiles exampleTable) exampleCfg (filter exampleFiles)
      = some (exampleFeedContext.All, exampleFeedContext.Recent) ∧
    generateRss (exampleEnv exampleFiles exampleTable) exampleCfg exampleFeedContext []
      = ([⟨"rss.xml", false, "http://example.com/three;http://example.com/two;"⟩], .ok) ∧
    (∃ items : List RssItem,
      generateRss (exampleEnv exampleFiles exampleTable) exampleCfg exampleFeedContext []
        = rssWriteToFile (exampleEnv exampleFiles exampleTable) (feedOf exampleCfg items)
            "rss.xml" [] ∧
      List.Forall₂
        (fun p item => ∃ u, exampleUrl.ParseRef "http://example.com/" p.Slug = .ok u ∧
          item = NewRssItem p.Title p.Description (exampleUrl.toStr u) p.Author ""
            p.PublishDate)
        exampleFeedContext.Recent items ∧
      items.length = exampleFeedContext.Recent.length ∧
      (∀ files all,
        getPosts (exampleEnv exampleFiles exampleTable) exampleCfg files
          = some (all, exampleFeedContext.Recent) →
        items.length = min exampleCfg.RecentPostsCount.toNat all.length ∧
        (SortContract (exampleEnv exampleFiles exampleTable).sortSort →
          items.Pairwise (fun a b => b.PubDate ≤ a.PubDate))) ∧
      ((generateRss (exampleEnv exampleFiles exampleTable) exampleCfg exampleFeedContext []).2
          = .ok →
        (∃ e ∈ (generateRss (exampleEnv exampleFiles exampleTable) exampleCfg
            exampleFeedContext []).1, e.name = "rss.xml") ∧
        ∀ e ∈ (generateRss (exampleEnv exampleFiles exampleTable) exampleCfg
            exampleFeedContext []).1, e.name = "rss.xml" →
          e.data = (exampleEnv exampleFiles exampleTable).serialize
            (feedOf exampleCfg items))) ∧
    generateRss (exampleEnv exampleFiles exampleTable) exampleCfg
        (newPostTempalte none 0
          ([examplePost "three" 3, examplePost "two" 2] ++ examplePost ":draft" 1 :: []) [])
        examplePublic
      = (examplePublic,
          .error ("Error parsing post URL: " ++ "parse \":draft\": missing protocol scheme")) :=
  ⟨rfl, by decide, by decide,
    (generateRss_one_item_per_recent_post (exampleEnv exampleFiles exampleTable) exampleCfg
      exampleFeedContext [] "http://example.com/" rfl).1
      (by
        intro p hp
        simp only [exampleFeedContext, newPostTempalte, List.mem_cons, List.mem_singleton,
          List.not_mem_nil, or_false] at hp
        rcases hp with rfl | rfl
        · exact ⟨"http://example.com/three", rfl⟩
        · exact ⟨"http://example.com/two", rfl⟩),
    (generateRss_one_item_per_recent_post (exampleEnv exampleFiles exampleTable) exampleCfg
      (newPostTempalte none 0
        ([examplePost "three" 3, examplePost "two" 2] ++ examplePost ":draft" 1 :: []) [])
      examplePublic "http://example.com/" rfl).2
      [examplePost "three" 3, examplePost "two" 2] (examplePost ":draft" 1) []
      "parse \":draft\": missing protocol scheme" rfl
      (by
        intro q hq
        simp only [List.mem_cons, List.mem_singleton, List.not_mem_nil, or_false] at hq
        rcases hq with rfl | rfl
        · exact ⟨"http://example.com/three", rfl⟩
        · exact ⟨"http://example.com/two", rfl⟩)
      rfl⟩

/-- Counterexample to C6: the post at index 1 has the Slug `index.html`; `GenerateSite`
succeeds, and `index.html` ends with the page rendered for that post, not with the one
rendered for the post at index 0. -/
theorem index_html_overwritten_by_later_post :
    getPosts (exampleEnv indexFiles indexTable) exampleCfg (filter indexFiles)
      = some ([examplePost "a" 2, examplePost "index.html" 1],
          [examplePost "a" 2, examplePost "index.html" 1]) ∧
    GenerateSite (exampleEnv indexFiles indexTable) exampleCfg []
      = ([⟨"a", false, "page 0 T-a"⟩, ⟨"index.html", false, "page 1 T-index.html"⟩,
          ⟨"rss.xml", false, "http://example.com/a;http://example.com/index.html;"⟩], .ok) ∧
    ((exampleEnv indexFiles indexTable).render
        (newPostTempalte (some (examplePost "index.html" 1)) 1
          [examplePost "a" 2, examplePost "index.html" 1]
          [examplePost "a" 2, examplePost "index.html" 1])).1 = "page 1 T-index.html" ∧
    ((exampleEnv indexFiles indexTable).render
        (newPostTempalte (some (examplePost "a" 2)) 0
          [examplePost "a" 2, examplePost "index.html" 1]
          [examplePost "a" 2, examplePost "index.html" 1])).1 ≠ "page 1 T-index.html" := by
  decide

/-- C6 (amended): when `GenerateSite` succeeds on a non-empty sorted sequence in which no
post at an index greater than 0 has a Slug that `filepath.Join(PublicDir, Slug)` resolves to
the `index.html` of the output directory (as the Slug `index.html` does), the `generateFile`
call for the post at index 0 (render context: that post, index 0, the recent subset, the
full sequence) writes the same rendered output to the file of the post and to `index.html`,
no later step changes `index.html`, and `index.html` ends with exactly that output. -/
theorem index_html_is_page_of_newest_post (env : Env) (cfg : Config) (pub final : Dir)
    (files : List FileInfo) (p0 : LongPost) (rest recent : List LongPost)
    (hrun : GenerateSite env cfg pub = (final, .ok))
    (hfiles : env.readPostsDir = .ok files)
    (hposts : getPosts env cfg (filter files) = some (p0 :: rest, recent))
    (hrest : ∀ p ∈ rest, locate env p.Slug ≠ .entry "index.html") :
    ∃ cleared dir1,
      clearPublishDir env pub = (cleared, none) ∧
      generateFile env (newPostTempalte (some p0) 0 recent (p0 :: rest)) true cleared
        = (dir1, .ok) ∧
      (∀ e ∈ dir1, e.name = "index.html" →
        e.data = (env.render (newPostTempalte (some p0) 0 recent (p0 :: rest))).1) ∧
      (∀ n, locate env p0.Slug = .entry n → ∀ e ∈ dir1, e.name = n →
        e.data = (env.render (newPostTempalte (some p0) 0 recent (p0 :: rest))).1) ∧
      (∀ e, e.name = "index.html" → (e ∈ final ↔ e ∈ dir1)) ∧
      (∃ e ∈ final, e.name = "index.html") ∧
      (∀ e ∈ final, e.name = "index.html" →
        e.data = (env.render (newPostTempalte (some p0) 0 recent (p0 :: rest))).1) := by
  obtain ⟨files1, all, recent1, cleared, pages, h1, h2, h3, h4, h5⟩ := GenerateSite_ok_run hrun
  rw [hfiles] at h1
  cases h1
  rw [hposts] at h2
  cases h2
  obtain ⟨dir1, hfirst, hlater⟩ := generatePages_cons_ok h4
  have hfirst1 : generateFile env (newPostTempalte (some p0) 0 recent (p0 :: rest)) true cleared
      = (dir1, .ok) := hfirst
  obtain ⟨hex, hdata, hslug⟩ := generateFile_index_ok rfl hfirst1
  have hframe : ∀ e : Entry, e.name = "index.html" → (e ∈ final ↔ e ∈ dir1) := by
    intro e he
    have hp := generatePages_mem_ne env recent (p0 :: rest) e rest 1 dir1
      (fun p hp => by rw [he]; exact hrest p hp) (by omega)
    have hr := generateRss_mem_ne env cfg (newPostTempalte none 0 recent (p0 :: rest)) pages e
      (by rw [he]; decide)
    rw [hlater] at hp
    rw [h5] at hr
    exact hr.trans hp
  refine ⟨cleared, dir1, h3, hfirst1, hdata, ?_, hframe, ?_, ?_⟩
  · intro n hn e he hname
    exact (hslug n hn).2 e he hname
  · obtain ⟨e, he, hn⟩ := hex
    exact ⟨e, (hframe e hn).mpr he, hn⟩
  · intro e he hn
    exact hdata e ((hframe e hn).mp he) hn

/-- Witness of the amended C6: on the example directory `index.html` holds the page of the
post dated 3; and when the Slug of the newest post is the path `css/page` below a
subdirectory, `index.html` holds the page of that post. -/
theorem index_html_is_page_of_newest_post_witness :
    (GenerateSite (exampleEnv exampleFiles exampleTable) exampleCfg examplePublic
      = ([⟨".htaccess", false, "deny"⟩, ⟨"css", true, ""⟩, ⟨"favicon.ico", false, "ICON"⟩,
          ⟨"three", false, "page 0 T-three"⟩, ⟨"index.html", false, "page 0 T-three"⟩,
          ⟨"two", false, "page 1 T-two"⟩, ⟨"one", false, "page 2 T-one"⟩,
          ⟨"rss.xml", false, "http://example.com/three;http://example.com/two;"⟩], .ok) ∧
    (exampleEnv exampleFiles exampleTable).readPostsDir = .ok exampleFiles ∧
    getPosts (exampleEnv exampleFiles exampleTable) exampleCfg (filter exampleFiles)
      = some (examplePost "three" 3 :: [examplePost "two" 2, examplePost "one" 1],
          [examplePost "three" 3, examplePost "two" 2]) ∧
    (∀ p ∈ [examplePost "two" 2, examplePost "one" 1],
      locate (exampleEnv exampleFiles exampleTable) p.Slug ≠ .entry "index.html") ∧
    ∀ e ∈ ([⟨".htaccess", false, "deny"⟩, ⟨"css", true, ""⟩, ⟨"favicon.ico", false, "ICON"⟩,
          ⟨"three", false, "page 0 T-three"⟩, ⟨"index.html", false, "page 0 T-three"⟩,
          ⟨"two", false, "page 1 T-two"⟩, ⟨"one", false, "page 2 T-one"⟩,
          ⟨"rss.xml", false, "http://example.com/three;http://example.com/two;"⟩] : Dir),
      e.name = "index.html" →
        e.data = ((exampleEnv exampleFiles exampleTable).render
          (newPostTempalte (some (examplePost "three" 3)) 0
            [examplePost "three" 3, examplePost "two" 2]
            (examplePost "three" 3 :: [examplePost "two" 2, examplePost "one" 1]))).1) ∧
    (GenerateSite (exampleEnv indexFiles nestedTable) exampleCfg examplePublic
      = ([⟨".htaccess", false, "deny"⟩, ⟨"css", true, ""⟩, ⟨"favicon.ico", false, "ICON"⟩,
          ⟨"index.html", false, "page 0 T-css/page"⟩, ⟨"b", false, "page 1 T-b"⟩,
          ⟨"rss.xml", false, "http://example.com/css/page;http://example.com/b;"⟩], .ok) ∧
    locate (exampleEnv indexFiles nestedTable) "css/page" = .below "css" ∧
    getPosts (exampleEnv indexFiles nestedTable) exampleCfg (filter indexFiles)
      = some (examplePost "css/page" 2 :: [examplePost "b" 1],
          [examplePost "css/page" 2, examplePost "b" 1]) ∧
    (∀ p ∈ [examplePost "b" 1],
      locate (exampleEnv indexFiles nestedTable) p.Slug ≠ .entry "index.html") ∧
    ∀ e ∈ ([⟨".htaccess", false, "deny"⟩, ⟨"css", true, ""⟩, ⟨"favicon.ico", false, "ICON"⟩,
          ⟨"index.html", false, "page 0 T-css/page"⟩, ⟨"b", false, "page 1 T-b"⟩,
          ⟨"rss.xml", false, "http://example.com/css/page;http://example.com/b;"⟩] : Dir),
      e.name = "index.html" →
        e.data = ((exampleEnv indexFiles nestedTable).render
          (newPostTempalte (some (examplePost "css/page" 2)) 0
            [examplePost "css/page" 2, examplePost "b" 1]
            (examplePost "css/page" 2 :: [examplePost "b" 1]))).1) :=
  ⟨⟨by decide, rfl, by decide, by decide,
    (index_html_is_page_of_newest_post (exampleEnv exampleFiles exampleTable) exampleCfg
      examplePublic _ exampleFiles (examplePost "three" 3)
      [examplePost "two" 2, examplePost "one" 1] [examplePost "three" 3, examplePost "two" 2]
      (by decide) rfl (by decide) (by decide)).elim
        (fun _ h => h.elim (fun _ h2 => h2.2.2.2.2.2.2))⟩,
   ⟨by decide, by decide, by decide, by decide,
    (index_html_is_page_of_newest_post (exampleEnv indexFiles nestedTable) exampleCfg
      examplePublic _ indexFiles (examplePost "css/page" 2)
      [examplePost "b" 1] [examplePost "css/page" 2, examplePost "b" 1]
      (by decide) rfl (by decide) (by decide)).elim
        (fun _ h => h.elim (fun _ h2 => h2.2.2.2.2.2.2))⟩⟩

/-- Counterexample to C9: two loaded posts have the Slugs `favicon.ico` and `.htaccess`;
`GenerateSite` succeeds and both the reserved file and the hidden file of the output
directory are overwritten with the rendered pages. -/
theorem reserved_and_hidden_files_overwritten_by_slug :
    (⟨"favicon.ico", false, "ICON"⟩ : Entry) ∈ examplePublic ∧
    (⟨".htaccess", false, "deny"⟩ : Entry) ∈ examplePublic ∧
    GenerateSite (exampleEnv indexFiles reservedTable) exampleCfg examplePublic
      = ([⟨".htaccess", false, "page 1 T-.htaccess"⟩, ⟨"css", true, ""⟩,
          ⟨"favicon.ico", false, "page 0 T-favicon.ico"⟩,
          ⟨"index.html", false, "page 0 T-favicon.ico"⟩,
          ⟨"rss.xml", false, "http://example.com/favicon.ico;http://example.com/.htaccess;"⟩],
          .ok) ∧
    (⟨"favicon.ico", false, "ICON"⟩ : Entry)
      ∉ (GenerateSite (exampleEnv indexFiles reservedTable) exampleCfg examplePublic).1 ∧
    (⟨".htaccess", false, "deny"⟩ : Entry)
      ∉ (GenerateSite (exampleEnv indexFiles reservedTable) exampleCfg examplePublic).1 := by
  decide

/-- C9 (amended): for every initial output directory and every outcome of `GenerateSite`
(success, error or panic), a reserved file (favicon.ico, robots.txt, humans.txt,
apple-touch-icon.png) or hidden file of the output directory is neither removed nor
modified, and none is created, provided every loaded post's Slug is a single path element
different from the name of that file. -/
theorem GenerateSite_keeps_reserved_and_hidden (env : Env) (cfg : Config) (pub : Dir)
    (hs : SortContract env.sortSort) (e : Entry)
    (hk : HasPrefix e.name "." = true ∨ e.name ∈ specFiles)
    (hslug : ∀ files, env.readPostsDir = .ok files →
      ∀ p ∈ loadPosts env (filter files), plainName p.Slug = true ∧ p.Slug ≠ e.name) :
    e ∈ (GenerateSite env cfg pub).1 ↔ e ∈ pub := by
  apply GenerateSite_mem_kept env cfg pub e ((keptName_iff e.name).mpr hk)
  intro files all recent hfiles hposts p hp
  have hall := (getPosts_some hposts).1
  have hmem : p ∈ loadPosts env (filter files) := by
    rw [hall] at hp
    exact (hs.1 _ _).mem_iff.mp hp
  rw [locate_plain env p.Slug (hslug files hfiles p hmem).1]
  exact fun h => (hslug files hfiles p hmem).2 (Target.entry.inj h)

/-- Witness of the amended C9: the reserved file of the example output directory after a
run on the example posts. -/
theorem GenerateSite_keeps_reserved_and_hidden_witness :
    SortContract (exampleEnv exampleFiles exampleTable).sortSort ∧
    (HasPrefix "favicon.ico" "." = true ∨ "favicon.ico" ∈ specFiles) ∧
    (∀ files, (exampleEnv exampleFiles exampleTable).readPostsDir = .ok files →
      ∀ p ∈ loadPosts (exampleEnv exampleFiles exampleTable) (filter files),
        plainName p.Slug = true ∧ p.Slug ≠ "favicon.ico") ∧
    ((⟨"favicon.ico", false, "ICON"⟩ : Entry)
        ∈ (GenerateSite (exampleEnv exampleFiles exampleTable) exampleCfg examplePublic).1 ↔
      (⟨"favicon.ico", false, "ICON"⟩ : Entry) ∈ examplePublic) :=
  have hslug : ∀ files, (exampleEnv exampleFiles exampleTable).readPostsDir = .ok files →
      ∀ p ∈ loadPosts (exampleEnv exampleFiles exampleTable) (filter files),
        plainName p.Slug = true ∧ p.Slug ≠ "favicon.ico" := by
    intro files hfiles
    have hf : exampleFiles = files := by
      simpa [exampleEnv] using hfiles
    subst hf
    decide
  ⟨insertionSort_contract, by decide, hslug,
    GenerateSite_keeps_reserved_and_hidden (exampleEnv exampleFiles exampleTable) exampleCfg
      examplePublic insertionSort_contract ⟨"favicon.ico", false, "ICON"⟩ (by decide) hslug⟩

/-- Counterexample to C10: two files load to posts with the same Slug `x`; `GenerateSite`
succeeds and leaves the file `x`, which is neither a directory, hidden, reserved, `index.html`
nor `rss.xml`, and is named by the Slug of two loaded posts, not of exactly one. -/
theorem output_file_named_by_two_posts :
    GenerateSite (exampleEnv indexFiles sameSlugTable) exampleCfg examplePublic
      = ([⟨".htaccess", false, "deny"⟩, ⟨"css", true, ""⟩, ⟨"favicon.ico", false, "ICON"⟩,
          ⟨"x", false, "page 1 second"⟩, ⟨"index.html", false, "page 0 T-x"⟩,
          ⟨"rss.xml", false, "http://example.com/x;http://example.com/x;"⟩], .ok) ∧
    removable ⟨"x", false, "page 1 second"⟩ = true ∧
    slugCount (loadPosts (exampleEnv indexFiles sameSlugTable) (filter indexFiles)) "x" = 2 := by
  decide

/-- C10 (amended): when `GenerateSite` succeeds and the Slugs of the loaded posts are single
path elements and pairwise distinct, `clearPublishDir` has run before the first page is written and has left no file that
is neither hidden nor reserved, the pages and the feed are generated into that cleared
directory, and afterwards every non-directory, non-hidden, non-reserved file other than
`index.html` and `rss.xml` is named by the Slug of exactly one post loaded in this run. -/
theorem output_files_named_by_exactly_one_slug (env : Env) (cfg : Config) (pub final : Dir)
    (files : List FileInfo) (hs : SortContract env.sortSort)
    (hrun : GenerateSite env cfg pub = (final, .ok))
    (hfiles : env.readPostsDir = .ok files)
    (hslugs : (∀ p ∈ loadPosts env (filter files), plainName p.Slug = true) ∧
      ((loadPosts env (filter files)).map (fun p => p.Slug)).Nodup) :
    ∃ all recent cleared pages,
      getPosts env cfg (filter files) = some (all, recent) ∧
      all.Perm (loadPosts env (filter files)) ∧
      clearPublishDir env pub = (cleared, none) ∧
      (∀ e ∈ cleared, e.isDir = true ∨ HasPrefix e.name "." = true ∨ e.name ∈ specFiles) ∧
      generatePages env recent all 0 all cleared = (pages, .ok) ∧
      generateRss env cfg (newPostTempalte none 0 recent all) pages = (final, .ok) ∧
      ∀ e ∈ final, e.isDir = false → HasPrefix e.name "." = false → e.name ∉ specFiles →
        e.name ≠ "index.html" → e.name ≠ "rss.xml" →
        slugCount (loadPosts env (filter files)) e.name = 1 := by
  obtain ⟨files1, all, recent, cleared, pages, h1, h2, h3, h4, h5⟩ := GenerateSite_ok_run hrun
  rw [hfiles] at h1
  cases h1
  have hperm : all.Perm (loadPosts env (filter files)) := by
    rw [(getPosts_some h2).1]
    exact hs.1 _ _
  have hcleared : ∀ e ∈ cleared,
      e.isDir = true ∨ HasPrefix e.name "." = true ∨ e.name ∈ specFiles := by
    intro e he
    have := clearPublishDir_ok_not_removable env pub cleared h3 e he
    revert this
    unfold removable
    cases e.isDir <;> cases HasPrefix e.name "." <;> cases hc : specFiles.contains e.name <;>
      simp_all
  refine ⟨all, recent, cleared, pages, h2, hperm, h3, hcleared, h4, h5, ?_⟩
  have hP : ∀ e ∈ final,
      (fun (name : String) (isDir : Bool) =>
        isDir = true ∨ HasPrefix name "." = true ∨ name ∈ specFiles ∨ name = "index.html" ∨
          name = "rss.xml" ∨ ∃ p ∈ all, p.Slug = name) e.name e.isDir := by
    have hgen := generateRss_forall
      (fun (name : String) (isDir : Bool) =>
        isDir = true ∨ HasPrefix name "." = true ∨ name ∈ specFiles ∨ name = "index.html" ∨
          name = "rss.xml" ∨ ∃ p ∈ all, p.Slug = name)
      env cfg (newPostTempalte none 0 recent all) pages
      (Or.inr (Or.inr (Or.inr (Or.inr (Or.inl rfl)))))
      (by
        have hpages := generatePages_forall
          (fun (name : String) (isDir : Bool) =>
            isDir = true ∨ HasPrefix name "." = true ∨ name ∈ specFiles ∨
              name = "index.html" ∨ name = "rss.xml" ∨ ∃ p ∈ all, p.Slug = name)
          env recent all (Or.inr (Or.inr (Or.inr (Or.inl rfl)))) all 0 cleared
          (fun p hp n hn => by
            rw [locate_plain env p.Slug (hslugs.1 p (hperm.mem_iff.mp hp))] at hn
            exact Or.inr (Or.inr (Or.inr (Or.inr (Or.inr ⟨p, hp, Target.entry.inj hn⟩)))))
          (by
            intro e he
            rcases hcleared e he with h | h | h
            · exact Or.inl h
            · exact Or.inr (Or.inl h)
            · exact Or.inr (Or.inr (Or.inl h)))
        rw [h4] at hpages
        exact hpages)
    rw [h5] at hgen
    exact hgen
  intro e he hdir hhid hres hidx hrss
  rcases hP e he with h | h | h | h | h | ⟨p, hp, hpn⟩
  · rw [hdir] at h; exact absurd h (by simp)
  · rw [hhid] at h; exact absurd h (by simp)
  · exact absurd h hres
  · exact absurd h hidx
  · exact absurd h hrss
  · rw [slugCount_eq_count]
    apply List.count_eq_one_of_mem hslugs.2
    rw [← hpn]
    exact List.mem_map_of_mem _ (hperm.mem_iff.mp hp)

/-- Witness of the amended C10 on the example directory, whose stale page `old-post` and
stale `index.html` do not survive. -/
theorem output_files_named_by_exactly_one_slug_witness :
    SortContract (exampleEnv exampleFiles exampleTable).sortSort ∧
    GenerateSite (exampleEnv exampleFiles exampleTable) exampleCfg examplePublic
      = ([⟨".htaccess", false, "deny"⟩, ⟨"css", true, ""⟩, ⟨"favicon.ico", false, "ICON"⟩,
          ⟨"three", false, "page 0 T-three"⟩, ⟨"index.html", false, "page 0 T-three"⟩,
          ⟨"two", false, "page 1 T-two"⟩, ⟨"one", false, "page 2 T-one"⟩,
          ⟨"rss.xml", false, "http://example.com/three;http://example.com/two;"⟩], .ok) ∧
    (exampleEnv exampleFiles exampleTable).readPostsDir = .ok exampleFiles ∧
    ((∀ p ∈ loadPosts (exampleEnv exampleFiles exampleTable) (filter exampleFiles),
        plainName p.Slug = true) ∧
      ((loadPosts (exampleEnv exampleFiles exampleTable) (filter exampleFiles)).map
        (fun p => p.Slug)).Nodup) ∧
    ∃ all recent cleared pages,
      getPosts (exampleEnv exampleFiles exampleTable) exampleCfg (filter exampleFiles)
        = some (all, recent) ∧
      all.Perm (loadPosts (exampleEnv exampleFiles exampleTable) (filter exampleFiles)) ∧
      clearPublishDir (exampleEnv exampleFiles exampleTable) examplePublic = (cleared, none) ∧
      (∀ e ∈ cleared, e.isDir = true ∨ HasPrefix e.name "." = true ∨ e.name ∈ specFiles) ∧
      generatePages (exampleEnv exampleFiles exampleTable) recent all 0 all cleared
        = (pages, .ok) ∧
      generateRss (exampleEnv exampleFiles exampleTable) exampleCfg
        (newPostTempalte none 0 recent all) pages
        = ([⟨".htaccess", false, "deny"⟩, ⟨"css", true, ""⟩, ⟨"favicon.ico", false, "ICON"⟩,
          ⟨"three", false, "page 0 T-three"⟩, ⟨"index.html", false, "page 0 T-three"⟩,
          ⟨"two", false, "page 1 T-two"⟩, ⟨"one", false, "page 2 T-one"⟩,
          ⟨"rss.xml", false, "http://example.com/three;http://example.com/two;"⟩], .ok) ∧
      ∀ e ∈ ([⟨".htaccess", false, "deny"⟩, ⟨"css", true, ""⟩, ⟨"favicon.ico", false, "ICON"⟩,
          ⟨"three", false, "page 0 T-three"⟩, ⟨"index.html", false, "page 0 T-three"⟩,
          ⟨"two", false, "page 1 T-two"⟩, ⟨"one", false, "page 2 T-one"⟩,
          ⟨"rss.xml", false, "http://example.com/three;http://example.com/two;"⟩] : Dir),
        e.isDir = false → HasPrefix e.name "." = false → e.name ∉ specFiles →
        e.name ≠ "index.html" → e.name ≠ "rss.xml" →
        slugCount (loadPosts (exampleEnv exampleFiles exampleTable) (filter exampleFiles))
          e.name = 1 :=
  ⟨insertionSort_contract, by decide, rfl, by decide,
    output_files_named_by_exactly_one_slug (exampleEnv exampleFiles exampleTable) exampleCfg
      examplePublic _ exampleFiles insertionSort_contract (by decide) rfl (by decide)⟩

end Site
